import Mathlib

/-!
# Verification of the `validator` package

A shallow embedding of `validator.go` (struct-tag driven field validation) and
theorems about it.

Modelling conventions.

* Go strings are Lean strings; `len(s)` of a Go string is its number of UTF-8
  bytes, `String.utf8ByteSize`.
* Go `int` is the 64-bit signed integer.  Field values are carried as `Int`;
  the only place where the width matters is `strconv.Atoi`, whose range checks
  are modelled explicitly.
* A value handed to `Validate` is seen through `reflect`; `Value` is the part of
  a `reflect.Value` that the package looks at: its kind, and for the kinds the
  package distinguishes, its content.
* A method of `*Valid` that appends to `s.errors` is a function that takes the
  accumulator and returns the new one.
* `fmt.Println` is modelled by the list of its operands, appended to the
  standard output of the run.
-/

namespace validator

/-! ## Errors -/

/-- Go `error` values built by the package: `errors.New` gives `errorString`,
`NewValidationError` gives a `*ValidationError` and `errors.Join` a `joinError`. -/
inductive GoError where
  | errorString (msg : String)
  | validationError (field : String) (err : GoError)
  | joinError (errs : List GoError)

mutual
/-- Equality of errors is decidable. -/
def GoError.decEq : (a b : GoError) → Decidable (a = b)
  | .errorString m, .errorString n =>
    if h : m = n then isTrue (by rw [h]) else isFalse (fun h1 => h (by cases h1; rfl))
  | .validationError f e, .validationError g d =>
    if h : f = g then
      match GoError.decEq e d with
      | isTrue h2 => isTrue (by rw [h, h2])
      | isFalse h2 => isFalse (fun h1 => h2 (by cases h1; rfl))
    else isFalse (fun h1 => h (by cases h1; rfl))
  | .joinError es, .joinError ds =>
    match GoError.decEqList es ds with
    | isTrue h2 => isTrue (by rw [h2])
    | isFalse h2 => isFalse (fun h1 => h2 (by cases h1; rfl))
  | .errorString _, .validationError _ _ => isFalse (fun h => by cases h)
  | .errorString _, .joinError _ => isFalse (fun h => by cases h)
  | .validationError _ _, .errorString _ => isFalse (fun h => by cases h)
  | .validationError _ _, .joinError _ => isFalse (fun h => by cases h)
  | .joinError _, .errorString _ => isFalse (fun h => by cases h)
  | .joinError _, .validationError _ _ => isFalse (fun h => by cases h)
/-- Equality of lists of errors is decidable. -/
def GoError.decEqList : (a b : List GoError) → Decidable (a = b)
  | [], [] => isTrue rfl
  | [], _ :: _ => isFalse (fun h => by cases h)
  | _ :: _, [] => isFalse (fun h => by cases h)
  | a :: as, b :: bs =>
    match GoError.decEq a b with
    | isTrue h1 =>
      match GoError.decEqList as bs with
      | isTrue h2 => isTrue (by rw [h1, h2])
      | isFalse h2 => isFalse (fun h => h2 (by cases h; rfl))
    | isFalse h1 => isFalse (fun h => h1 (by cases h; rfl))
end

instance : DecidableEq GoError := GoError.decEq

def ErrNotStruct : GoError := .errorString "wrong argument given, should be a struct"

def ErrInvalidValidatorSyntax : GoError := .errorString "invalid validator syntax"

def ErrValidateForUnexportedFields : GoError :=
  .errorString "validation for unexported field is not allowed"

def ErrLenValidationFailed : GoError := .errorString "len validation failed"

def ErrInValidationFailed : GoError := .errorString "in validation failed"

def ErrMaxValidationFailed : GoError := .errorString "max validation failed"

def ErrMinValidationFailed : GoError := .errorString "min validation failed"

/-- The constructor `NewValidationError(err, field)`. -/
def NewValidationError (err : GoError) (field : String) : GoError :=
  .validationError field err

/-- The library function `errors.Join`: `nil` when there is nothing to join,
otherwise one error that wraps the given ones in order. -/
def Join (errs : List GoError) : Option GoError :=
  match errs with
  | [] => none
  | e :: es => some (.joinError (e :: es))

mutual
/-- The method `Error()`: the text of an `errors.New` error, `fmt.Sprintf("%s: %s",
e.field, e.err)` for a `*ValidationError`, and for a joined error the messages
of the wrapped errors separated by newlines. -/
def GoError.Error : GoError → String
  | .errorString msg => msg
  | .validationError field err => field ++ ": " ++ err.Error
  | .joinError errs => GoError.ErrorLines errs
/-- The messages of the errors `errs`, one per line. -/
def GoError.ErrorLines : List GoError → String
  | [] => ""
  | e :: es =>
    match es with
    | [] => e.Error
    | _ :: _ => e.Error ++ "\n" ++ GoError.ErrorLines es
end

/-- The method `Unwrap() error` of `*ValidationError`; the other errors wrap no
single error. -/
def GoError.Unwrap : GoError → Option GoError
  | .validationError _ err => some err
  | _ => none

/-! ## Library functions on strings -/

/-- Pieces of a character sequence between the occurrences of `sep`. -/
def splitChars (sep : Char) : List Char → List (List Char)
  | [] => [[]]
  | c :: cs =>
    if c = sep then [] :: splitChars sep cs
    else
      match splitChars sep cs with
      | [] => [[c]]
      | p :: ps => (c :: p) :: ps

/-- The library function `strings.Split(s, sep)` for a one-character separator. -/
def Split (s : String) (sep : Char) : List String :=
  (splitChars sep s.data).map String.mk

/-- The two errors of `strconv`: `ErrSyntax` and `ErrRange`. -/
inductive NumError where
  | ErrSyntax
  | ErrRange
deriving DecidableEq, Repr

/-- Largest value of `uint64`. -/
def maxUint64 : Nat := 2 ^ 64 - 1

/-- The digit loop of `strconv.ParseUint(s, 10, 64)`: `n` is the number read
so far.  The first character that is not a decimal digit is a syntax error; a
number that leaves `uint64` is a range error, reported as soon as it is seen,
with the value `maxUint64`. -/
def parseUintLoop : List Char → Nat → Nat × Option NumError
  | [], n => (n, none)
  | c :: cs, n =>
    if c.isDigit then
      if maxUint64 / 10 + 1 ≤ n then (maxUint64, some .ErrRange)
      else if maxUint64 < n * 10 + (c.toNat - 48) then (maxUint64, some .ErrRange)
      else parseUintLoop cs (n * 10 + (c.toNat - 48))
    else (0, some .ErrSyntax)

/-- The library function `strconv.ParseUint(s, 10, 64)`. -/
def ParseUint (s : List Char) : Nat × Option NumError :=
  match s with
  | [] => (0, some .ErrSyntax)
  | c :: cs => parseUintLoop (c :: cs) 0

/-- The second half of `strconv.ParseInt(s, 10, 0)` on a 64-bit platform, after
the sign has been picked off (`neg`) and `ParseUint` has returned `r`: a syntax
error returns 0, a value outside `int` returns the nearest bound together with
a range error. -/
def checkRange (neg : Bool) (r : Nat × Option NumError) : Int × Option NumError :=
  match r with
  | (_, some .ErrSyntax) => (0, some .ErrSyntax)
  | (un, _) =>
    if neg = false ∧ 2 ^ 63 ≤ un then (2 ^ 63 - 1, some .ErrRange)
    else if neg = true ∧ 2 ^ 63 < un then (-(2 ^ 63), some .ErrRange)
    else (if neg then -(un : Int) else (un : Int), none)

/-- The library function `strconv.ParseInt(s, 10, 0)`: an optional sign, then
`ParseUint` on the rest and the check of the range. -/
def ParseInt (s : List Char) : Int × Option NumError :=
  match s with
  | [] => (0, some .ErrSyntax)
  | c :: cs =>
    if c = '+' then checkRange false (ParseUint cs)
    else if c = '-' then checkRange true (ParseUint cs)
    else checkRange false (ParseUint (c :: cs))

/-- The library function `strconv.Atoi`.  Its result is that of
`ParseInt(s, 10, 0)`; the shortcut it takes on short inputs returns the same
value and the same kind of error. -/
def Atoi (s : String) : Int × Option NumError :=
  ParseInt s.data

/-! ## Values seen through `reflect` -/

/-- The kinds of `reflect.Kind` that the package tells apart; every other kind
(booleans, floats, sized integers, maps, arrays, interfaces, ...) is `Other`. -/
inductive Kind where
  | Invalid
  | Int
  | String
  | Slice
  | Struct
  | Ptr
  | Other
deriving DecidableEq, Repr

/-- One field of a struct: its name, the value of the `validate` key of its tag
(`Tag.Get("validate")`, empty when the key is absent), whether it is exported,
and its value. -/
structure StructField (α : Type) where
  Name : String
  Tag : String
  IsExported : Bool
  value : α

/-- A `reflect.Value`.  `invalid` is the zero `reflect.Value`, which is what
`reflect.ValueOf(nil)` and `Elem()` of a nil pointer return; `ptr none` is a nil
pointer and `ptr (some v)` a pointer to `v`; `other` is a value of any kind the
package does not distinguish. -/
inductive Value where
  | invalid
  | int (n : Int)
  | string (s : String)
  | slice (elems : List Value)
  | struct (fields : List (StructField Value))
  | ptr (elem : Option Value)
  | other

abbrev Field := StructField Value

/-- The method `reflect.Value.Kind`. -/
def Value.Kind : Value → Kind
  | .invalid => .Invalid
  | .int _ => .Int
  | .string _ => .String
  | .slice _ => .Slice
  | .struct _ => .Struct
  | .ptr _ => .Ptr
  | .other => .Other

/-- The method `reflect.Value.Elem` on a pointer; on a nil pointer it returns
the zero value. -/
def Value.Elem : Value → Value
  | .ptr (some v) => v
  | _ => .invalid

/-! ## The accumulator `Valid` and its checks -/

/-- The struct `Valid`: the violations found so far, oldest first. -/
structure Valid where
  errors : List GoError

/-- The constructor `NewValid`. -/
def NewValid : Valid := ⟨[]⟩

/-- The generic function `Contains`. -/
def Contains {T : Type} [DecidableEq T] (t : List T) (needle : T) : Bool :=
  match t with
  | [] => false
  | v :: vs => if v = needle then true else Contains vs needle

/-- The method `ValidLen`; `len(val)` is the byte length of `val`. -/
def ValidLen (val : String) (comp : Int) (name : String) (s : Valid) : Valid :=
  if (val.utf8ByteSize : Int) ≠ comp then
    ⟨s.errors ++ [NewValidationError ErrLenValidationFailed name]⟩
  else s

/-- The method `ValidLenSyntax`: the parsed length and `ok`, with the new
accumulator. -/
def ValidLenSyntax (param name : String) (s : Valid) : (Int × Bool) × Valid :=
  match Atoi param with
  | (length, err1) =>
    if err1 ≠ none ∨ length < 0 then
      ((0, false), ⟨s.errors ++ [NewValidationError ErrInvalidValidatorSyntax name]⟩)
    else ((length, true), s)

/-- The method `ValidIntSyntax`. -/
def ValidIntSyntax (param name : String) (s : Valid) : (Int × Bool) × Valid :=
  match Atoi param with
  | (minn, err1) =>
    if err1 ≠ none then
      ((0, false), ⟨s.errors ++ [NewValidationError ErrInvalidValidatorSyntax name]⟩)
    else ((minn, true), s)

/-- The method `ValidInIntSyntax`; the error of `Atoi` is dropped and its value
kept for every entry. -/
def ValidInIntSyntax (param name : String) (s : Valid) : (List Int × Bool) × Valid :=
  if param.utf8ByteSize = 0 then
    (([], false), ⟨s.errors ++ [NewValidationError ErrInvalidValidatorSyntax name]⟩)
  else
    (((Split param ',').map fun str => (Atoi str).1, true), s)

/-- The method `ValidInStringSyntax`. -/
def ValidInStringSyntax (param name : String) (s : Valid) : (List String × Bool) × Valid :=
  if param.utf8ByteSize = 0 then
    (([], false), ⟨s.errors ++ [NewValidationError ErrInvalidValidatorSyntax name]⟩)
  else
    ((Split param ',', true), s)

/-- The method `ValidMin`. -/
def ValidMin (val comp : Int) (name : String) (s : Valid) : Valid :=
  if val < comp then ⟨s.errors ++ [NewValidationError ErrMinValidationFailed name]⟩ else s

/-- The method `ValidMax`. -/
def ValidMax (val comp : Int) (name : String) (s : Valid) : Valid :=
  if val > comp then ⟨s.errors ++ [NewValidationError ErrMaxValidationFailed name]⟩ else s

/-- The method `ValidInInt`. -/
def ValidInInt (val : Int) (comp : List Int) (name : String) (s : Valid) : Valid :=
  if Contains comp val = false then
    ⟨s.errors ++ [NewValidationError ErrInValidationFailed name]⟩
  else s

/-- The method `ValidInString`. -/
def ValidInString (val : String) (comp : List String) (name : String) (s : Valid) : Valid :=
  if Contains comp val = false then
    ⟨s.errors ++ [NewValidationError ErrInValidationFailed name]⟩
  else s

/-! ## The rule handlers

Each handler and the loop over the elements of a slice it contains are a pair
of mutually recursive functions. -/

mutual
/-- The method `validateMax`. -/
def validateMax (val fieldName : String) (fieldValue : Value) (s : Valid) : Valid :=
  match ValidIntSyntax val fieldName s with
  | ((_, false), s1) => s1
  | ((minn, true), s1) =>
    match fieldValue with
    | .string str => ValidMax (str.utf8ByteSize : Int) minn fieldName s1
    | .int n => ValidMax n minn fieldName s1
    | .slice elems => validateMaxElems val fieldName elems s1
    | _ => s1
/-- The loop `for v := 0; v < fieldValue.Len(); v++` of `validateMax`. -/
def validateMaxElems (val fieldName : String) (elems : List Value) (s : Valid) : Valid :=
  match elems with
  | [] => s
  | e :: es => validateMaxElems val fieldName es (validateMax val fieldName e s)
end

mutual
/-- The method `validateMin`. -/
def validateMin (val fieldName : String) (fieldValue : Value) (s : Valid) : Valid :=
  match ValidIntSyntax val fieldName s with
  | ((_, false), s1) => s1
  | ((minn, true), s1) =>
    match fieldValue with
    | .string str => ValidMin (str.utf8ByteSize : Int) minn fieldName s1
    | .int n => ValidMin n minn fieldName s1
    | .slice elems => validateMinElems val fieldName elems s1
    | _ => s1
/-- The loop `for v := 0; v < fieldValue.Len(); v++` of `validateMin`. -/
def validateMinElems (val fieldName : String) (elems : List Value) (s : Valid) : Valid :=
  match elems with
  | [] => s
  | e :: es => validateMinElems val fieldName es (validateMin val fieldName e s)
end

mutual
/-- The method `validateLen`. -/
def validateLen (val fieldName : String) (fieldValue : Value) (s : Valid) : Valid :=
  match ValidLenSyntax val fieldName s with
  | ((_, false), s1) => s1
  | ((p, true), s1) =>
    match fieldValue with
    | .string str => ValidLen str p fieldName s1
    | .slice elems => validateLenElems val fieldName elems s1
    | _ => s1
/-- The loop `for v := 0; v < fieldValue.Len(); v++` of `validateLen`. -/
def validateLenElems (val fieldName : String) (elems : List Value) (s : Valid) : Valid :=
  match elems with
  | [] => s
  | e :: es => validateLenElems val fieldName es (validateLen val fieldName e s)
end

mutual
/-- The method `validateIn`: the membership list is parsed per string or int
value, after the kind of the value is known. -/
def validateIn (val fieldName : String) (fieldValue : Value) (s : Valid) : Valid :=
  match fieldValue with
  | .string str =>
    match ValidInStringSyntax val fieldName s with
    | ((_, false), s1) => s1
    | ((ins, true), s1) => ValidInString str ins fieldName s1
  | .int n =>
    match ValidInIntSyntax val fieldName s with
    | ((_, false), s1) => s1
    | ((ins, true), s1) => ValidInInt n ins fieldName s1
  | .slice elems => validateInElems val fieldName elems s
  | _ => s
/-- The loop `for v := 0; v < fieldValue.Len(); v++` of `validateIn`. -/
def validateInElems (val fieldName : String) (elems : List Value) (s : Valid) : Valid :=
  match elems with
  | [] => s
  | e :: es => validateInElems val fieldName es (validateIn val fieldName e s)
end

/-! ## `Validate` -/

/-- How a call ends: it panics, or it returns an `error` (`none` is `nil`). -/
inductive Outcome where
  | panic (msg : String)
  | returned (err : Option GoError)
deriving DecidableEq

/-- A finished call: how it ended and what it wrote to standard output, one
entry per `fmt.Println(fieldName, fieldValue.Interface())` with its operands. -/
structure Run where
  outcome : Outcome
  stdout : List (String × Value)

/-- The variables that live across the iterations of the loop of `Validate`. -/
structure LoopState where
  valid : Valid
  stdout : List (String × Value)

/-- What one iteration does: go on with the next field, or leave `Validate`. -/
inductive Control where
  | next (st : LoopState)
  | exit (r : Run)

/-- The `switch tagParts[0]` of `Validate`. -/
def dispatch (rule val fieldName : String) (fieldValue : Value) (valid : Valid) : Valid :=
  if rule = "len" then validateLen val fieldName fieldValue valid
  else if rule = "in" then validateIn val fieldName fieldValue valid
  else if rule = "min" then validateMin val fieldName fieldValue valid
  else if rule = "max" then validateMax val fieldName fieldValue valid
  else valid

/-- The body of the loop `for i := 0; i < valueOfS.NumField(); i++` of
`Validate`, for the field `f`.  `tagParts[1]` panics when the tag has no `:`. -/
def iteration (f : Field) (st : LoopState) : Control :=
  if f.Tag = "" then .next st
  else if f.IsExported = false then
    .exit ⟨.returned (some ErrValidateForUnexportedFields), st.stdout⟩
  else
    match Split f.Tag ':' with
    | rule :: val :: _ =>
      .next ⟨dispatch rule val f.Name f.value st.valid, st.stdout ++ [(f.Name, f.value)]⟩
    | _ => .exit ⟨.panic "runtime error: index out of range [1] with length 1", st.stdout⟩

/-- The loop of `Validate` over the fields, in declaration order. -/
def validateFields : List Field → LoopState → Control
  | [], st => .next st
  | f :: fs, st =>
    match iteration f st with
    | .next st1 => validateFields fs st1
    | .exit r => .exit r

/-- The function `Validate`.  `Type()` panics on the zero `reflect.Value`. -/
def Validate (s : Value) : Run :=
  match s with
  | .invalid => ⟨.panic "reflect: call of reflect.Value.Type on zero Value", []⟩
  | _ =>
    let valueOfS := if s.Kind = .Ptr then s.Elem else s
    match valueOfS with
    | .struct fields =>
      match validateFields fields ⟨NewValid, []⟩ with
      | .next st => ⟨.returned (Join st.valid.errors), st.stdout⟩
      | .exit r => r
    | _ => ⟨.returned (some ErrNotStruct), []⟩

/-! ## Vocabulary of the statements -/

/-- The violations that the rule of the field `f` produces when the loop body
is run on `f` alone with an empty accumulator (none if the body leaves
`Validate`). -/
def fieldViolations (f : Field) : List GoError :=
  match iteration f ⟨NewValid, []⟩ with
  | .next st => st.valid.errors
  | .exit _ => []

/-- The list of violations that a consumer recovers from the error returned by
`Validate`: `Unwrap() []error` of the joined error, nothing for `nil`. -/
def violations : Option GoError → List GoError
  | some (.joinError errs) => errs
  | _ => []

/-- The number denoted by the decimal digits `cs` written after the number
`n`. -/
def digitsValue : List Char → Nat → Nat
  | [], n => n
  | c :: cs, n => digitsValue cs (n * 10 + (c.toNat - 48))

/-- A numeral without its leading sign, if it has one. -/
def dropSign (cs : List Char) : List Char :=
  match cs with
  | [] => []
  | c :: r => if c = '+' ∨ c = '-' then r else c :: r

/-- The text `p` is a decimal integer: an optional sign `+` or `-` followed by
one or more decimal digits. -/
def isDecimalInteger (p : String) : Bool :=
  !(dropSign p.data).isEmpty && (dropSign p.data).all Char.isDigit

/-- The integer that the decimal integer `p` denotes. -/
def decimalValue (p : String) : Int :=
  match p.data with
  | [] => 0
  | c :: r =>
    if c = '-' then -(digitsValue r 0 : Int)
    else if c = '+' then (digitsValue r 0 : Int)
    else (digitsValue (c :: r) 0 : Int)

/-- The text `e` starts, after its optional sign, with decimal digits that
denote a number above the largest `uint64`. -/
def leadingDigitsOverflow (e : String) : Bool :=
  decide (maxUint64 < digitsValue ((dropSign e.data).takeWhile Char.isDigit) 0)

/-- The bound of `int` nearest to a number written as `e`: the least `int` when
`e` starts with `-`, the largest otherwise. -/
def nearestBound (e : String) : Int :=
  if e.data.head? = some '-' then -(2 ^ 63) else 2 ^ 63 - 1

/-- The integer that an entry `e` of a membership list of integers stands for:
the number it denotes when it is a decimal integer that fits `int`; the nearest
bound of `int` when it is a decimal integer that does not fit, or when its
leading digits overflow; 0 for any other text. -/
def entryValue (e : String) : Int :=
  if isDecimalInteger e = true ∧ -(2 ^ 63) ≤ decimalValue e ∧ decimalValue e < 2 ^ 63 then
    decimalValue e
  else if isDecimalInteger e = true ∨ leadingDigitsOverflow e = true then nearestBound e
  else 0

/-- The parameter `p` is well formed for the rule `rule`: a decimal integer that
fits `int` for `min` and `max`, one that is moreover not negative for `len`,
and a list that is not empty for `in`. -/
def wellFormedParam (rule p : String) : Bool :=
  if rule = "len" then
    isDecimalInteger p && decide (0 ≤ decimalValue p) && decide (decimalValue p < 2 ^ 63)
  else if rule = "in" then decide (p ≠ "")
  else
    isDecimalInteger p && decide (-(2 ^ 63) ≤ decimalValue p) &&
      decide (decimalValue p < 2 ^ 63)

/-- The rule named in a tag: the text before its first `:`. -/
def ruleName (tag : String) : String :=
  String.mk (tag.data.takeWhile fun c => c ≠ ':')

/-- The kinds of violation that a rule can generate: the syntax kind and the
kind of the rule; none for a name that is not a rule. -/
def ruleKinds (rule : String) : List GoError :=
  if rule = "len" then [ErrInvalidValidatorSyntax, ErrLenValidationFailed]
  else if rule = "in" then [ErrInvalidValidatorSyntax, ErrInValidationFailed]
  else if rule = "min" then [ErrInvalidValidatorSyntax, ErrMinValidationFailed]
  else if rule = "max" then [ErrInvalidValidatorSyntax, ErrMaxValidationFailed]
  else []

/-- What is left of the result of the loop when the standard output is
disregarded: the accumulator, or the way `Validate` ended. -/
def Control.silent : Control → Valid ⊕ Outcome
  | .next st => .inl st.valid
  | .exit r => .inr r.outcome

/-- The lines that a complete pass over the fields prints: one per annotated
field, in declaration order. -/
def printed (fields : List Field) : List (String × Value) :=
  (fields.filter fun f => f.Tag ≠ "").map fun f => (f.Name, f.value)

/-! ## Theorems: the accumulator only grows -/

theorem ValidIntSyntax_eq (param name : String) (s : Valid) :
    ValidIntSyntax param name s =
      if (Atoi param).2 = none then (((Atoi param).1, true), s)
      else ((0, false), ⟨s.errors ++ [NewValidationError ErrInvalidValidatorSyntax name]⟩) := by
  unfold ValidIntSyntax
  split
  simp_all

theorem ValidLenSyntax_eq (param name : String) (s : Valid) :
    ValidLenSyntax param name s =
      if (Atoi param).2 = none ∧ 0 ≤ (Atoi param).1 then (((Atoi param).1, true), s)
      else ((0, false), ⟨s.errors ++ [NewValidationError ErrInvalidValidatorSyntax name]⟩) := by
  unfold ValidLenSyntax
  split
  rename_i n e h
  simp only [h]
  by_cases h1 : e = none <;> by_cases h2 : 0 ≤ n <;> simp [h1, h2]

mutual
theorem validateMax_frame (val fieldName : String) :
    ∀ (v : Value) (s : Valid),
      validateMax val fieldName v s = ⟨s.errors ++ (validateMax val fieldName v NewValid).errors⟩
  | v, s => by
    unfold validateMax
    rw [ValidIntSyntax_eq, ValidIntSyntax_eq]
    by_cases h : (Atoi val).2 = none
    · simp only [h, if_true]
      cases v with
      | slice es => simp only; exact validateMaxElems_frame val fieldName es s
      | string str => simp only [ValidMax, NewValid]; split <;> simp
      | int n => simp only [ValidMax, NewValid]; split <;> simp
      | _ => simp [NewValid]
    · simp [h, NewValid]
theorem validateMaxElems_frame (val fieldName : String) :
    ∀ (es : List Value) (s : Valid),
      validateMaxElems val fieldName es s =
        ⟨s.errors ++ (validateMaxElems val fieldName es NewValid).errors⟩
  | [], s => by simp [validateMaxElems, NewValid]
  | e :: es, s => by
    unfold validateMaxElems
    rw [validateMaxElems_frame val fieldName es (validateMax val fieldName e s),
      validateMaxElems_frame val fieldName es (validateMax val fieldName e NewValid),
      validateMax_frame val fieldName e s]
    simp [List.append_assoc]
end

mutual
theorem validateMin_frame (val fieldName : String) :
    ∀ (v : Value) (s : Valid),
      validateMin val fieldName v s = ⟨s.errors ++ (validateMin val fieldName v NewValid).errors⟩
  | v, s => by
    unfold validateMin
    rw [ValidIntSyntax_eq, ValidIntSyntax_eq]
    by_cases h : (Atoi val).2 = none
    · simp only [h, if_true]
      cases v with
      | slice es => simp only; exact validateMinElems_frame val fieldName es s
      | string str => simp only [ValidMin, NewValid]; split <;> simp
      | int n => simp only [ValidMin, NewValid]; split <;> simp
      | _ => simp [NewValid]
    · simp [h, NewValid]
theorem validateMinElems_frame (val fieldName : String) :
    ∀ (es : List Value) (s : Valid),
      validateMinElems val fieldName es s =
        ⟨s.errors ++ (validateMinElems val fieldName es NewValid).errors⟩
  | [], s => by simp [validateMinElems, NewValid]
  | e :: es, s => by
    unfold validateMinElems
    rw [validateMinElems_frame val fieldName es (validateMin val fieldName e s),
      validateMinElems_frame val fieldName es (validateMin val fieldName e NewValid),
      validateMin_frame val fieldName e s]
    simp [List.append_assoc]
end

mutual
theorem validateLen_frame (val fieldName : String) :
    ∀ (v : Value) (s : Valid),
      validateLen val fieldName v s = ⟨s.errors ++ (validateLen val fieldName v NewValid).errors⟩
  | v, s => by
    unfold validateLen
    rw [ValidLenSyntax_eq, ValidLenSyntax_eq]
    by_cases h : (Atoi val).2 = none ∧ 0 ≤ (Atoi val).1
    · simp only [h, and_self, if_true]
      cases v with
      | slice es => simp only; exact validateLenElems_frame val fieldName es s
      | string str => simp only [ValidLen, NewValid]; split <;> simp
      | _ => simp [NewValid]
    · simp [h, NewValid]
theorem validateLenElems_frame (val fieldName : String) :
    ∀ (es : List Value) (s : Valid),
      validateLenElems val fieldName es s =
        ⟨s.errors ++ (validateLenElems val fieldName es NewValid).errors⟩
  | [], s => by simp [validateLenElems, NewValid]
  | e :: es, s => by
    unfold validateLenElems
    rw [validateLenElems_frame val fieldName es (validateLen val fieldName e s),
      validateLenElems_frame val fieldName es (validateLen val fieldName e NewValid),
      validateLen_frame val fieldName e s]
    simp [List.append_assoc]
end

mutual
theorem validateIn_frame (val fieldName : String) :
    ∀ (v : Value) (s : Valid),
      validateIn val fieldName v s = ⟨s.errors ++ (validateIn val fieldName v NewValid).errors⟩
  | v, s => by
    unfold validateIn
    cases v with
    | slice es => simp only; exact validateInElems_frame val fieldName es s
    | string str =>
      by_cases h : val.utf8ByteSize = 0
      · simp [ValidInStringSyntax, NewValid, h]
      · simp only [ValidInStringSyntax, ValidInString, NewValid, h, if_false]
        split <;> simp
    | int n =>
      by_cases h : val.utf8ByteSize = 0
      · simp [ValidInIntSyntax, NewValid, h]
      · simp only [ValidInIntSyntax, ValidInInt, NewValid, h, if_false]
        split <;> simp
    | _ => simp [NewValid]
theorem validateInElems_frame (val fieldName : String) :
    ∀ (es : List Value) (s : Valid),
      validateInElems val fieldName es s =
        ⟨s.errors ++ (validateInElems val fieldName es NewValid).errors⟩
  | [], s => by simp [validateInElems, NewValid]
  | e :: es, s => by
    unfold validateInElems
    rw [validateInElems_frame val fieldName es (validateIn val fieldName e s),
      validateInElems_frame val fieldName es (validateIn val fieldName e NewValid),
      validateIn_frame val fieldName e s]
    simp [List.append_assoc]
end

theorem dispatch_frame (rule val fieldName : String) (v : Value) (s : Valid) :
    dispatch rule val fieldName v s =
      ⟨s.errors ++ (dispatch rule val fieldName v NewValid).errors⟩ := by
  unfold dispatch
  split
  · exact validateLen_frame val fieldName v s
  · split
    · exact validateIn_frame val fieldName v s
    · split
      · exact validateMin_frame val fieldName v s
      · split
        · exact validateMax_frame val fieldName v s
        · simp [NewValid]

/-! ## Theorems: splitting a tag -/

theorem splitChars_ne_nil (sep : Char) (cs : List Char) : splitChars sep cs ≠ [] := by
  cases cs with
  | nil => simp [splitChars]
  | cons c cs =>
    unfold splitChars
    split
    · simp
    · split <;> simp

theorem splitChars_of_not_mem (sep : Char) :
    ∀ cs : List Char, sep ∉ cs → splitChars sep cs = [cs]
  | [], _ => by simp [splitChars]
  | c :: cs, h => by
    have hc : ¬ c = sep := fun e => h (by simp [e])
    have hcs : sep ∉ cs := fun e => h (by simp [e])
    simp [splitChars, hc, splitChars_of_not_mem sep cs hcs]

theorem splitChars_of_mem (sep : Char) :
    ∀ cs : List Char, sep ∈ cs → ∃ a b rest, splitChars sep cs = a :: b :: rest
  | [], h => by simp at h
  | c :: cs, h => by
    by_cases hc : c = sep
    · obtain ⟨b, rest, hb⟩ := List.exists_cons_of_ne_nil (splitChars_ne_nil sep cs)
      exact ⟨[], b, rest, by simp [splitChars, hc, hb]⟩
    · have hcs : sep ∈ cs := by
        rcases List.mem_cons.1 h with e | e
        · exact absurd e.symm hc
        · exact e
      obtain ⟨a, b, rest, hab⟩ := splitChars_of_mem sep cs hcs
      exact ⟨c :: a, b, rest, by simp [splitChars, hc, hab]⟩

theorem Split_of_mem (sep : Char) (s : String) (h : sep ∈ s.data) :
    ∃ a b rest, Split s sep = a :: b :: rest := by
  obtain ⟨a, b, rest, hab⟩ := splitChars_of_mem sep s.data h
  exact ⟨String.mk a, String.mk b, rest.map String.mk, by simp [Split, hab]⟩

theorem Split_of_not_mem (sep : Char) (s : String) (h : sep ∉ s.data) :
    Split s sep = [s] := by
  simp [Split, splitChars_of_not_mem sep s.data h]

/-! ## Theorems: one iteration and the loop -/

theorem iteration_unannotated (f : Field) (st : LoopState) (h : f.Tag = "") :
    iteration f st = .next st := by
  simp [iteration, h]

theorem fieldViolations_unannotated (f : Field) (h : f.Tag = "") : fieldViolations f = [] := by
  simp [fieldViolations, iteration, h, NewValid]

theorem iteration_unexported (f : Field) (st : LoopState) (h : f.Tag ≠ "")
    (hx : f.IsExported = false) :
    iteration f st = .exit ⟨.returned (some ErrValidateForUnexportedFields), st.stdout⟩ := by
  simp [iteration, h, hx]

theorem iteration_wellformed (f : Field) (st : LoopState) (h : f.Tag ≠ "")
    (hx : f.IsExported = true) (hc : ':' ∈ f.Tag.data) :
    iteration f st =
      .next ⟨⟨st.valid.errors ++ fieldViolations f⟩, st.stdout ++ [(f.Name, f.value)]⟩ := by
  obtain ⟨a, b, rest, hab⟩ := Split_of_mem ':' f.Tag hc
  simp only [iteration, fieldViolations, h, hx, hab, if_false, Bool.true_eq_false]
  rw [dispatch_frame]

theorem iteration_no_colon (f : Field) (st : LoopState) (h : f.Tag ≠ "")
    (hx : f.IsExported = true) (hc : ':' ∉ f.Tag.data) :
    iteration f st =
      .exit ⟨.panic "runtime error: index out of range [1] with length 1", st.stdout⟩ := by
  simp [iteration, h, hx, Split_of_not_mem ':' f.Tag hc]

theorem validateFields_wellformed :
    ∀ (fields : List Field) (st : LoopState),
      (∀ f ∈ fields, f.Tag ≠ "" → f.IsExported = true ∧ ':' ∈ f.Tag.data) →
      validateFields fields st =
        .next ⟨⟨st.valid.errors ++ fields.flatMap fieldViolations⟩, st.stdout ++ printed fields⟩
  | [], st, _ => by simp [validateFields, printed]
  | f :: fs, st, h => by
    have hfs : ∀ g ∈ fs, g.Tag ≠ "" → g.IsExported = true ∧ ':' ∈ g.Tag.data :=
      fun g hg => h g (List.mem_cons_of_mem f hg)
    by_cases ht : f.Tag = ""
    · simp only [validateFields, iteration_unannotated f st ht]
      rw [validateFields_wellformed fs st hfs]
      simp [List.flatMap_cons, fieldViolations_unannotated f ht, printed, ht]
    · obtain ⟨hx, hc⟩ := h f (List.mem_cons_self f fs) ht
      simp only [validateFields, iteration_wellformed f st ht hx hc]
      rw [validateFields_wellformed fs _ hfs]
      simp [List.flatMap_cons, printed, ht, List.append_assoc]

theorem Join_eq_none_iff (errs : List GoError) : Join errs = none ↔ errs = [] := by
  cases errs <;> simp [Join]

theorem violations_Join (errs : List GoError) : violations (Join errs) = errs := by
  cases errs <;> simp [Join, violations]

/-! ## Inputs that are not structs -/

/-- Every input other than the untyped nil that is neither a struct nor a
pointer to a struct makes `Validate` return `ErrNotStruct`, printing nothing. -/
theorem Validate_not_struct (s : Value) (hnil : s ≠ .invalid)
    (hs : ∀ fields, s ≠ .struct fields) (hp : ∀ fields, s ≠ .ptr (some (.struct fields))) :
    Validate s = ⟨.returned (some ErrNotStruct), []⟩ := by
  cases s with
  | invalid => exact absurd rfl hnil
  | struct fields => exact absurd rfl (hs fields)
  | ptr e =>
    cases e with
    | none => rfl
    | some v =>
      cases v with
      | struct fields => exact absurd rfl (hp fields)
      | _ => rfl
  | _ => rfl

/-- C1 (defect of the code): on the untyped nil value `Validate` does not return
`ErrNotStruct`; `reflect.ValueOf(nil)` is the zero value and `Type()` panics on
it. -/
theorem Validate_untyped_nil_panics :
    (Validate .invalid).outcome = .panic "reflect: call of reflect.Value.Type on zero Value" ∧
    (Validate .invalid).outcome ≠ .returned (some ErrNotStruct) := by
  decide

/-! ## The report is the concatenation of the fields' violations -/

/-- C2: for a struct whose annotated fields are all exported and have a tag
containing `:`, `Validate` returns an error from which exactly the
concatenation, in declaration order, of the violations of each field run on
its own is recovered; it returns `nil` exactly when that concatenation is
empty. -/
theorem Validate_reports_concatenation (fields : List Field)
    (h : ∀ f ∈ fields, f.Tag ≠ "" → f.IsExported = true ∧ ':' ∈ f.Tag.data) :
    ∃ err, (Validate (.struct fields)).outcome = .returned err ∧
      violations err = fields.flatMap fieldViolations ∧
      (err = none ↔ fields.flatMap fieldViolations = []) := by
  refine ⟨Join (fields.flatMap fieldViolations), ?_, violations_Join _, Join_eq_none_iff _⟩
  simp [Validate, Value.Kind, validateFields_wellformed fields _ h, NewValid]

theorem Validate_reports_concatenation_witness :
    (∀ f ∈ [(⟨"Name", "len:5", true, .string "ab"⟩ : Field), ⟨"Note", "", false, .other⟩,
        ⟨"Age", "min:x", true, .int 5⟩, ⟨"Tags", "in:a,b", true, .slice [.string "c", .string "a"]⟩],
      f.Tag ≠ "" → f.IsExported = true ∧ ':' ∈ f.Tag.data) ∧
    ∃ err, (Validate (.struct [⟨"Name", "len:5", true, .string "ab"⟩, ⟨"Note", "", false, .other⟩,
        ⟨"Age", "min:x", true, .int 5⟩,
        ⟨"Tags", "in:a,b", true, .slice [.string "c", .string "a"]⟩])).outcome = .returned err ∧
      violations err = [(⟨"Name", "len:5", true, .string "ab"⟩ : Field), ⟨"Note", "", false, .other⟩,
        ⟨"Age", "min:x", true, .int 5⟩,
        ⟨"Tags", "in:a,b", true, .slice [.string "c", .string "a"]⟩].flatMap fieldViolations ∧
      (err = none ↔ [(⟨"Name", "len:5", true, .string "ab"⟩ : Field), ⟨"Note", "", false, .other⟩,
        ⟨"Age", "min:x", true, .int 5⟩,
        ⟨"Tags", "in:a,b", true, .slice [.string "c", .string "a"]⟩].flatMap fieldViolations = []) :=
  ⟨by decide, Validate_reports_concatenation _ (by decide)⟩

/-! ## A tag without a parameter -/

/-- C3 (defect of the code): for an exported field tagged `len`, with no `:`,
`Validate` returns no report at all: indexing `tagParts[1]` panics, so neither
a syntax violation for that field nor the violation of the other field is
returned. -/
theorem Validate_tag_without_colon_panics :
    (Validate (.struct [⟨"Age", "min:10", true, .int 5⟩,
        ⟨"Name", "len", true, .string "abc"⟩])).outcome
      = .panic "runtime error: index out of range [1] with length 1" ∧
    ∀ err, (Validate (.struct [⟨"Age", "min:10", true, .int 5⟩,
        ⟨"Name", "len", true, .string "abc"⟩])).outcome ≠ .returned err := by
  refine ⟨by decide, fun err h => ?_⟩
  rw [show (Validate (.struct [⟨"Age", "min:10", true, .int 5⟩,
        ⟨"Name", "len", true, .string "abc"⟩])).outcome
      = .panic "runtime error: index out of range [1] with length 1" from by decide] at h
  cases h

/-! ## Annotated unexported fields -/

theorem validateFields_unexported (f : Field) (post : List Field) (ht : f.Tag ≠ "")
    (hx : f.IsExported = false) :
    ∀ (pre : List Field) (st : LoopState),
      (∀ g ∈ pre, g.Tag ≠ "" → ':' ∈ g.Tag.data) →
      ∃ out, validateFields (pre ++ f :: post) st =
        .exit ⟨.returned (some ErrValidateForUnexportedFields), out⟩
  | [], st, _ => ⟨st.stdout, by simp [validateFields, iteration_unexported f st ht hx]⟩
  | g :: pre, st, h => by
    have hpre : ∀ k ∈ pre, k.Tag ≠ "" → ':' ∈ k.Tag.data :=
      fun k hk => h k (List.mem_cons_of_mem g hk)
    by_cases hg : g.Tag = ""
    · obtain ⟨out, ho⟩ := validateFields_unexported f post ht hx pre st hpre
      exact ⟨out, by simp [validateFields, iteration_unannotated g st hg, ho]⟩
    · cases hgx : g.IsExported with
      | false =>
        exact ⟨st.stdout, by simp [validateFields, iteration_unexported g st hg hgx]⟩
      | true =>
        have hc := h g (List.mem_cons_self g pre) hg
        obtain ⟨out, ho⟩ := validateFields_unexported f post ht hx pre
          ⟨⟨st.valid.errors ++ fieldViolations g⟩, st.stdout ++ [(g.Name, g.value)]⟩ hpre
        exact ⟨out, by simp [validateFields, iteration_wellformed g st hg hgx hc, ho]⟩

/-- C4: when some annotated field is unexported and every annotated field
before it has a tag containing `:`, `Validate` returns exactly
`ErrValidateForUnexportedFields`, whatever the earlier fields accumulated and
whatever fields follow. -/
theorem Validate_unexported_is_fatal (pre post : List Field) (f : Field)
    (ht : f.Tag ≠ "") (hx : f.IsExported = false)
    (hpre : ∀ g ∈ pre, g.Tag ≠ "" → ':' ∈ g.Tag.data) :
    (Validate (.struct (pre ++ f :: post))).outcome =
      .returned (some ErrValidateForUnexportedFields) := by
  obtain ⟨out, ho⟩ := validateFields_unexported f post ht hx pre ⟨NewValid, []⟩ hpre
  simp [Validate, Value.Kind, ho]

theorem Validate_unexported_is_fatal_witness :
    ("max:3" : String) ≠ "" ∧ false = false ∧
    (∀ g ∈ [(⟨"Name", "len:5", true, .string "ab"⟩ : Field)], g.Tag ≠ "" → ':' ∈ g.Tag.data) ∧
    (Validate (.struct ([(⟨"Name", "len:5", true, .string "ab"⟩ : Field)] ++
        (⟨"age", "max:3", false, .int 7⟩ : Field) :: [⟨"Bad", "len", true, .string "x"⟩]))).outcome =
      .returned (some ErrValidateForUnexportedFields) :=
  ⟨by decide, rfl, by decide,
    Validate_unexported_is_fatal [⟨"Name", "len:5", true, .string "ab"⟩]
      [⟨"Bad", "len", true, .string "x"⟩] ⟨"age", "max:3", false, .int 7⟩
      (by decide) rfl (by decide)⟩

/-! ## Theorems: `strconv.Atoi` reads decimal integers -/

theorem le_digitsValue : ∀ (cs : List Char) (n : Nat), n ≤ digitsValue cs n
  | [], n => by simp [digitsValue]
  | c :: cs, n => by
    have := le_digitsValue cs (n * 10 + (c.toNat - 48))
    simp only [digitsValue]
    omega

theorem parseUintLoop_digits :
    ∀ (cs : List Char) (n : Nat), n ≤ maxUint64 → cs.all Char.isDigit = true →
      parseUintLoop cs n =
        if digitsValue cs n ≤ maxUint64 then (digitsValue cs n, none)
        else (maxUint64, some .ErrRange)
  | [], n, hn, _ => by simp [parseUintLoop, digitsValue, hn]
  | c :: cs, n, _, h => by
    simp only [List.all_cons, Bool.and_eq_true] at h
    have hge := le_digitsValue cs (n * 10 + (c.toNat - 48))
    simp only [parseUintLoop, h.1, if_true, digitsValue]
    by_cases h1 : maxUint64 / 10 + 1 ≤ n
    · have : ¬ digitsValue cs (n * 10 + (c.toNat - 48)) ≤ maxUint64 := by
        simp only [maxUint64] at h1 ⊢
        omega
      simp [h1, this]
    · by_cases h2 : maxUint64 < n * 10 + (c.toNat - 48)
      · have : ¬ digitsValue cs (n * 10 + (c.toNat - 48)) ≤ maxUint64 := by omega
        simp [h1, h2, this]
      · simp only [h1, h2, if_false]
        exact parseUintLoop_digits cs _ (by omega) h.2

theorem parseUintLoop_not_digits :
    ∀ (cs : List Char) (n : Nat), cs.all Char.isDigit = false →
      parseUintLoop cs n = (0, some .ErrSyntax) ∨
        parseUintLoop cs n = (maxUint64, some .ErrRange)
  | [], n, h => by simp at h
  | c :: cs, n, h => by
    cases hc : c.isDigit with
    | false => simp [parseUintLoop, hc]
    | true =>
      have hcs : cs.all Char.isDigit = false := by
        simpa [List.all_cons, hc] using h
      simp only [parseUintLoop, hc, if_true]
      split
      · simp
      · split
        · simp
        · exact parseUintLoop_not_digits cs _ hcs

theorem checkRange_digits (neg : Bool) (c : Char) (r : List Char)
    (h : (c :: r).all Char.isDigit = true) :
    checkRange neg (ParseUint (c :: r)) =
      if neg = true then
        (if digitsValue (c :: r) 0 ≤ 2 ^ 63 then (-(digitsValue (c :: r) 0 : Int), none)
         else (-(2 ^ 63), some .ErrRange))
      else
        (if digitsValue (c :: r) 0 < 2 ^ 63 then ((digitsValue (c :: r) 0 : Int), none)
         else (2 ^ 63 - 1, some .ErrRange)) := by
  simp only [ParseUint]
  rw [parseUintLoop_digits (c :: r) 0 (by simp [maxUint64]) h]
  generalize digitsValue (c :: r) 0 = v
  by_cases hv : v ≤ maxUint64
  · rw [if_pos hv]
    cases neg <;> simp only [checkRange] <;> split_ifs <;> first | rfl | omega | simp_all
  · rw [if_neg hv]
    simp only [maxUint64] at hv
    cases neg <;> simp only [checkRange, maxUint64] <;> split_ifs <;>
      first | rfl | omega | simp_all

theorem checkRange_not_digits (neg : Bool) (cs : List Char)
    (h : cs = [] ∨ cs.all Char.isDigit = false) :
    (checkRange neg (ParseUint cs)).2 ≠ none := by
  cases cs with
  | nil => simp [ParseUint, checkRange]
  | cons c r =>
    have h1 : (c :: r).all Char.isDigit = false := by
      rcases h with h | h
      · simp at h
      · exact h
    simp only [ParseUint]
    rcases parseUintLoop_not_digits (c :: r) 0 h1 with h2 | h2
    · rw [h2]; simp [checkRange]
    · rw [h2]; cases neg <;> simp [checkRange, maxUint64]

theorem Atoi_of_decimal (p : String) (h : isDecimalInteger p = true) :
    Atoi p =
      if -(2 ^ 63) ≤ decimalValue p ∧ decimalValue p < 2 ^ 63 then (decimalValue p, none)
      else (if decimalValue p < 0 then -(2 ^ 63) else 2 ^ 63 - 1, some .ErrRange) := by
  unfold isDecimalInteger at h
  simp only [Bool.and_eq_true, Bool.not_eq_true', List.isEmpty_eq_false] at h
  obtain ⟨hne, hall⟩ := h
  unfold Atoi ParseInt decimalValue
  cases hp : p.data with
  | nil => simp [hp, dropSign] at hne
  | cons c r =>
    simp only [hp, dropSign] at hne hall
    by_cases hm : c = '-'
    · subst hm
      simp only [or_true, if_true] at hne hall
      obtain ⟨d, r, rfl⟩ := List.exists_cons_of_ne_nil hne
      have hpm : ¬ '-' = '+' := by decide
      simp only [if_true, hpm, if_false]
      rw [checkRange_digits true d r hall]
      generalize digitsValue (d :: r) 0 = v
      simp only [if_true]
      split_ifs <;> first | rfl | omega
    · by_cases hpl : c = '+'
      · subst hpl
        simp only [true_or, if_true] at hne hall
        obtain ⟨d, r, rfl⟩ := List.exists_cons_of_ne_nil hne
        simp only [if_true, hm, if_false]
        rw [checkRange_digits false d r hall]
        generalize digitsValue (d :: r) 0 = v
        simp only [Bool.false_eq_true, if_false]
        split_ifs <;> first | rfl | omega
      · simp only [hpl, hm, or_self, if_false] at hne hall
        simp only [hpl, hm, if_false]
        rw [checkRange_digits false c r hall]
        generalize digitsValue (c :: r) 0 = v
        simp only [Bool.false_eq_true, if_false]
        split_ifs <;> first | rfl | omega

theorem Atoi_of_not_decimal (p : String) (h : isDecimalInteger p = false) :
    (Atoi p).2 ≠ none := by
  unfold isDecimalInteger at h
  have h : dropSign p.data = [] ∨ (dropSign p.data).all Char.isDigit = false := by
    cases hd : dropSign p.data with
    | nil => exact Or.inl rfl
    | cons c r => right; simpa [hd] using h
  unfold Atoi ParseInt
  cases hp : p.data with
  | nil => simp
  | cons c r =>
    simp only [hp, dropSign] at h
    by_cases hpl : c = '+'
    · simp only [hpl, true_or, if_true] at h ⊢
      exact checkRange_not_digits false r h
    · by_cases hm : c = '-'
      · simp only [hm, or_true, if_true, hpl] at h ⊢
        have hpm : ¬ '-' = '+' := by decide
        simp only [hpm, if_false]
        exact checkRange_not_digits true r h
      · simp only [hpl, hm, or_self, if_false] at h ⊢
        exact checkRange_not_digits false (c :: r) h

/-! ## Theorems: tags of the form `rule:parameter` -/

theorem splitChars_append_sep (sep : Char) (b : List Char) :
    ∀ a : List Char, sep ∉ a → splitChars sep (a ++ sep :: b) = a :: splitChars sep b
  | [], _ => by simp [splitChars]
  | c :: a, h => by
    have hc : ¬ c = sep := fun e => h (by simp [e])
    have ha : sep ∉ a := fun e => h (by simp [e])
    simp [splitChars, hc, splitChars_append_sep sep b a ha]

theorem Split_rule_param (rule p : String) (hr : ':' ∉ rule.data) :
    Split (rule ++ ":" ++ p) ':' = rule :: Split p ':' := by
  have hd : (rule ++ ":" ++ p).data = rule.data ++ ':' :: p.data := by
    simp [String.data_append]
  simp [Split, hd, splitChars_append_sep ':' p.data rule.data hr]

theorem tag_ne_empty (rule p : String) : rule ++ ":" ++ p ≠ "" := by
  intro h
  have hd : (rule ++ ":" ++ p).data = rule.data ++ ':' :: p.data := by
    simp [String.data_append]
  rw [h] at hd
  simp at hd

theorem iteration_rule_param (f : Field) (rule p : String) (st : LoopState)
    (htag : f.Tag = rule ++ ":" ++ p) (hr : ':' ∉ rule.data) (hp : ':' ∉ p.data)
    (hx : f.IsExported = true) :
    iteration f st =
      .next ⟨dispatch rule p f.Name f.value st.valid, st.stdout ++ [(f.Name, f.value)]⟩ := by
  have hne : f.Tag ≠ "" := htag ▸ tag_ne_empty rule p
  have hs : Split f.Tag ':' = [rule, p] := by
    rw [htag, Split_rule_param rule p hr, Split_of_not_mem ':' p hp]
  simp [iteration, hne, hx, hs]

theorem utf8ByteSize_eq_zero (p : String) : p.utf8ByteSize = 0 ↔ p = "" := by
  obtain ⟨cs⟩ := p
  cases cs with
  | nil => simp [String.utf8ByteSize, String.utf8ByteSize.go]
  | cons c r =>
    have hc : 0 < c.utf8Size := Char.utf8Size_pos c
    constructor
    · intro h
      simp only [String.utf8ByteSize, String.utf8ByteSize.go] at h
      omega
    · intro h
      exact absurd (congrArg String.data h) (by simp)

theorem Contains_eq_true {T : Type} [DecidableEq T] (needle : T) :
    ∀ t : List T, Contains t needle = true ↔ needle ∈ t
  | [] => by simp [Contains]
  | v :: vs => by
    by_cases h : v = needle
    · simp [Contains, h]
    · have h1 : ¬ needle = v := fun e => h e.symm
      simp [Contains, h, h1, Contains_eq_true needle vs]

/-! ## Theorems: the loop over a concatenation of fields -/

theorem validateFields_append (post : List Field) :
    ∀ (pre : List Field) (st : LoopState),
      validateFields (pre ++ post) st =
        match validateFields pre st with
        | .next st1 => validateFields post st1
        | .exit r => .exit r
  | [], st => by simp [validateFields]
  | f :: pre, st => by
    simp only [List.cons_append, validateFields]
    cases iteration f st with
    | next st1 => exact validateFields_append post pre st1
    | exit r => rfl

theorem iteration_frame (f : Field) (st st0 r0 : LoopState)
    (h : iteration f st0 = .next r0) :
    iteration f ⟨⟨st.valid.errors ++ st0.valid.errors⟩, st.stdout ++ st0.stdout⟩ =
      .next ⟨⟨st.valid.errors ++ r0.valid.errors⟩, st.stdout ++ r0.stdout⟩ := by
  unfold iteration at h ⊢
  by_cases ht : f.Tag = ""
  · simp only [ht, if_true, Control.next.injEq] at h ⊢
    rw [← h]
  · simp only [ht, if_false] at h ⊢
    cases hx : f.IsExported with
    | false => simp [hx] at h
    | true =>
      simp only [hx, Bool.true_eq_false, if_false] at h ⊢
      split at h
      · rename_i rule val rest hs
        simp only [Control.next.injEq] at h
        rw [← h, dispatch_frame rule val f.Name f.value ⟨st.valid.errors ++ st0.valid.errors⟩,
          dispatch_frame rule val f.Name f.value st0.valid]
        simp [List.append_assoc]
      · simp at h

theorem validateFields_frame :
    ∀ (fields : List Field) (st st0 r0 : LoopState),
      validateFields fields st0 = .next r0 →
      validateFields fields ⟨⟨st.valid.errors ++ st0.valid.errors⟩, st.stdout ++ st0.stdout⟩ =
        .next ⟨⟨st.valid.errors ++ r0.valid.errors⟩, st.stdout ++ r0.stdout⟩
  | [], st, st0, r0, h => by
    simp only [validateFields, Control.next.injEq] at h ⊢
    rw [← h]
  | f :: fs, st, st0, r0, h => by
    simp only [validateFields] at h ⊢
    cases hi : iteration f st0 with
    | exit r => simp [hi] at h
    | next st1 =>
      rw [hi] at h
      rw [iteration_frame f st st0 st1 hi]
      exact validateFields_frame fs st st1 r0 h

theorem validateFields_exit_outcome :
    ∀ (fields : List Field) (st : LoopState) (r : Run),
      validateFields fields st = .exit r →
      r.outcome = .returned (some ErrValidateForUnexportedFields) ∨
        r.outcome = .panic "runtime error: index out of range [1] with length 1"
  | [], st, r, h => by simp [validateFields] at h
  | f :: fs, st, r, h => by
    simp only [validateFields] at h
    cases hi : iteration f st with
    | next st1 =>
      rw [hi] at h
      exact validateFields_exit_outcome fs st1 r h
    | exit r1 =>
      rw [hi] at h
      simp only [Control.exit.injEq] at h
      subst h
      unfold iteration at hi
      split_ifs at hi
      · simp only [Control.exit.injEq] at hi
        left; rw [← hi]
      · split at hi
        · simp at hi
        · simp only [Control.exit.injEq] at hi
          right; rw [← hi]

theorem Validate_struct_next (fields : List Field) (st : LoopState)
    (h : validateFields fields ⟨NewValid, []⟩ = .next st) :
    Validate (.struct fields) = ⟨.returned (Join st.valid.errors), st.stdout⟩ := by
  simp [Validate, Value.Kind, h]

theorem Validate_struct_exit (fields : List Field) (r : Run)
    (h : validateFields fields ⟨NewValid, []⟩ = .exit r) :
    Validate (.struct fields) = r := by
  simp [Validate, Value.Kind, h]

theorem Validate_struct_report (fields : List Field) (V : List GoError) :
    (Validate (.struct fields)).outcome = .returned (Join V) ↔
      ∃ out, validateFields fields ⟨NewValid, []⟩ = .next ⟨⟨V⟩, out⟩ := by
  cases hv : validateFields fields ⟨NewValid, []⟩ with
  | next st =>
    obtain ⟨⟨errs⟩, out⟩ := st
    rw [Validate_struct_next fields _ hv]
    simp only [Outcome.returned.injEq, Control.next.injEq, LoopState.mk.injEq, Valid.mk.injEq]
    constructor
    · intro h
      have := congrArg violations h
      rw [violations_Join, violations_Join] at this
      exact ⟨out, this, rfl⟩
    · rintro ⟨_, h, _⟩
      rw [h]
  | exit r =>
    rw [Validate_struct_exit fields _ hv]
    simp only [reduceCtorEq, exists_false, iff_false]
    intro h
    rcases validateFields_exit_outcome fields _ r hv with h1 | h1
    · rw [h1] at h
      cases V <;> simp [Join, ErrValidateForUnexportedFields] at h
    · rw [h1] at h
      cases h

/-! ## Theorems: inserting one field into a record -/

theorem validateFields_from (fields : List Field) (st r0 : LoopState)
    (h : validateFields fields ⟨NewValid, []⟩ = .next r0) :
    validateFields fields st =
      .next ⟨⟨st.valid.errors ++ r0.valid.errors⟩, st.stdout ++ r0.stdout⟩ := by
  have := validateFields_frame fields st ⟨NewValid, []⟩ r0 h
  simpa [NewValid] using this

theorem Validate_insert_field (f : Field) (c : List GoError) (o : List (String × Value))
    (hstep : ∀ st, iteration f st = .next ⟨⟨st.valid.errors ++ c⟩, st.stdout ++ o⟩)
    (pre post : List Field) (V1 V2 : List GoError)
    (h1 : (Validate (.struct pre)).outcome = .returned (Join V1))
    (h2 : (Validate (.struct post)).outcome = .returned (Join V2)) :
    (Validate (.struct (pre ++ f :: post))).outcome = .returned (Join (V1 ++ c ++ V2)) := by
  obtain ⟨o1, e1⟩ := (Validate_struct_report pre V1).1 h1
  obtain ⟨o2, e2⟩ := (Validate_struct_report post V2).1 h2
  refine (Validate_struct_report _ _).2 ⟨o1 ++ o ++ o2, ?_⟩
  rw [validateFields_append, e1]
  simp only [validateFields, hstep]
  rw [validateFields_from post _ _ e2]

theorem Validate_single_field (f : Field) (c : List GoError) (o : List (String × Value))
    (hstep : ∀ st, iteration f st = .next ⟨⟨st.valid.errors ++ c⟩, st.stdout ++ o⟩) :
    (Validate (.struct [f])).outcome = .returned (Join c) := by
  refine (Validate_struct_report _ _).2 ⟨o, ?_⟩
  simp [validateFields, hstep, NewValid]

/-! ## Theorems: what each rule does on a scalar field -/

theorem validateLen_bad_param (val fieldName : String) (v : Value) (s : Valid)
    (h : ¬ ((Atoi val).2 = none ∧ 0 ≤ (Atoi val).1)) :
    validateLen val fieldName v s =
      ⟨s.errors ++ [NewValidationError ErrInvalidValidatorSyntax fieldName]⟩ := by
  unfold validateLen
  rw [ValidLenSyntax_eq, if_neg h]

theorem validateMin_bad_param (val fieldName : String) (v : Value) (s : Valid)
    (h : (Atoi val).2 ≠ none) :
    validateMin val fieldName v s =
      ⟨s.errors ++ [NewValidationError ErrInvalidValidatorSyntax fieldName]⟩ := by
  unfold validateMin
  rw [ValidIntSyntax_eq, if_neg h]

theorem validateMax_bad_param (val fieldName : String) (v : Value) (s : Valid)
    (h : (Atoi val).2 ≠ none) :
    validateMax val fieldName v s =
      ⟨s.errors ++ [NewValidationError ErrInvalidValidatorSyntax fieldName]⟩ := by
  unfold validateMax
  rw [ValidIntSyntax_eq, if_neg h]

theorem decimal_no_colon (p : String) (h : isDecimalInteger p = true) : ':' ∉ p.data := by
  unfold isDecimalInteger at h
  simp only [Bool.and_eq_true, List.all_eq_true] at h
  have hcolon : Char.isDigit ':' = false := by decide
  cases hp : p.data with
  | nil => simp
  | cons c r =>
    simp only [hp, dropSign] at h
    intro hmem
    by_cases hs : c = '+' ∨ c = '-'
    · simp only [hs, if_true] at h
      rcases List.mem_cons.1 hmem with e | e
      · rcases hs with hs | hs <;> rw [hs] at e <;> exact absurd e (by decide)
      · have := h.2 _ e
        rw [hcolon] at this
        cases this
    · simp only [hs, if_false] at h
      have := h.2 _ hmem
      rw [hcolon] at this
      cases this

theorem Atoi_in_range (p : String) (h : isDecimalInteger p = true)
    (hlo : -(2 ^ 63) ≤ decimalValue p) (hhi : decimalValue p < 2 ^ 63) :
    Atoi p = (decimalValue p, none) := by
  rw [Atoi_of_decimal p h, if_pos ⟨hlo, hhi⟩]

/-! ## Parameters that do not parse -/

theorem dispatch_bad_param (rule p fieldName : String) (v : Value) (s : Valid)
    (hrule : rule = "len" ∨ rule = "min" ∨ rule = "max")
    (hp : isDecimalInteger p = false ∨
      (rule = "len" ∧ isDecimalInteger p = true ∧ decimalValue p < 0)) :
    dispatch rule p fieldName v s =
      ⟨s.errors ++ [NewValidationError ErrInvalidValidatorSyntax fieldName]⟩ := by
  have hlen : ¬ ((Atoi p).2 = none ∧ 0 ≤ (Atoi p).1) := by
    rcases hp with hp | ⟨_, hd, hneg⟩
    · exact fun h => Atoi_of_not_decimal p hp h.1
    · rw [Atoi_of_decimal p hd]
      split_ifs <;> first | (simp; omega) | simp
  rcases hrule with h | h | h
  · subst h
    simp only [dispatch, if_true]
    exact validateLen_bad_param p fieldName v s hlen
  · subst h
    have hp1 : isDecimalInteger p = false := by
      rcases hp with hp | ⟨hr, _⟩
      · exact hp
      · exact absurd hr (by decide)
    have h1 : ¬ ("min" : String) = "len" := by decide
    have h2 : ¬ ("min" : String) = "in" := by decide
    simp only [dispatch, h1, h2, if_false, if_true]
    exact validateMin_bad_param p fieldName v s (Atoi_of_not_decimal p hp1)
  · subst h
    have hp1 : isDecimalInteger p = false := by
      rcases hp with hp | ⟨hr, _⟩
      · exact hp
      · exact absurd hr (by decide)
    have h1 : ¬ ("max" : String) = "len" := by decide
    have h2 : ¬ ("max" : String) = "in" := by decide
    have h3 : ¬ ("max" : String) = "min" := by decide
    simp only [dispatch, h1, h2, h3, if_false, if_true]
    exact validateMax_bad_param p fieldName v s (Atoi_of_not_decimal p hp1)

theorem rule_no_colon (rule : String) (hrule : rule = "len" ∨ rule = "min" ∨ rule = "max") :
    ':' ∉ rule.data := by
  rcases hrule with h | h | h <;> subst h <;> decide

/-- C5 (defect of the code): the parameter `5:x` of the tag `min:5:x` is not a
decimal integer, yet the field gets no syntax violation.  The tag is split at
every `:`, so `Validate` hands the rule the text `5` and runs the semantic
check, which passes for the value 7 and fails for the value 3. -/
theorem bad_param_with_colon_is_checked :
    isDecimalInteger "5:x" = false ∧
    (Validate (.struct [⟨"Age", "min:5:x", true, .int 7⟩])).outcome = .returned none ∧
    (Validate (.struct [⟨"Age", "min:5:x", true, .int 3⟩])).outcome =
      .returned (some (.joinError [NewValidationError ErrMinValidationFailed "Age"])) ∧
    (Validate (.struct [⟨"Age", "min:5:x", true, .int 7⟩])).outcome ≠
      .returned (some (.joinError [NewValidationError ErrInvalidValidatorSyntax "Age"])) := by
  decide

/-- Where the parameter has no `:`, a parameter that does not parse is reported
once: an exported field of any kind tagged `len:p`, `min:p` or
`max:p`, where `p` contains no `:` and is not a decimal integer, or tagged
`len:p` with `p` a negative decimal integer, adds exactly one violation to the
accumulator, `ErrInvalidValidatorSyntax` with the name of the field; and in any
record whose other fields produce the reports `V1` (those before) and `V2`
(those after), the report is `V1`, that violation, `V2`, while the same record
with the annotation of this field removed reports `V1`, `V2`. -/
theorem bad_param_gives_one_syntax_violation (f : Field) (rule p : String)
    (hrule : rule = "len" ∨ rule = "min" ∨ rule = "max")
    (htag : f.Tag = rule ++ ":" ++ p) (hx : f.IsExported = true) (hc : ':' ∉ p.data)
    (hp : isDecimalInteger p = false ∨
      (rule = "len" ∧ isDecimalInteger p = true ∧ decimalValue p < 0)) :
    (∀ st : LoopState, iteration f st =
      .next ⟨⟨st.valid.errors ++ [NewValidationError ErrInvalidValidatorSyntax f.Name]⟩,
        st.stdout ++ [(f.Name, f.value)]⟩) ∧
    (∀ (pre post : List Field) (V1 V2 : List GoError),
      (Validate (.struct pre)).outcome = .returned (Join V1) →
      (Validate (.struct post)).outcome = .returned (Join V2) →
      (Validate (.struct (pre ++ f :: post))).outcome =
          .returned (Join (V1 ++ [NewValidationError ErrInvalidValidatorSyntax f.Name] ++ V2)) ∧
        (Validate (.struct (pre ++ { f with Tag := "" } :: post))).outcome =
          .returned (Join (V1 ++ V2))) := by
  have hstep : ∀ st : LoopState, iteration f st =
      .next ⟨⟨st.valid.errors ++ [NewValidationError ErrInvalidValidatorSyntax f.Name]⟩,
        st.stdout ++ [(f.Name, f.value)]⟩ := by
    intro st
    rw [iteration_rule_param f rule p st htag (rule_no_colon rule hrule) hc hx,
      dispatch_bad_param rule p f.Name f.value st.valid hrule hp]
  refine ⟨hstep, fun pre post V1 V2 h1 h2 => ⟨?_, ?_⟩⟩
  · exact Validate_insert_field f _ _ hstep pre post V1 V2 h1 h2
  · have h0 : ∀ st : LoopState, iteration { f with Tag := "" } st =
        .next ⟨⟨st.valid.errors ++ []⟩, st.stdout ++ []⟩ := by
      intro st
      simp [iteration]
    have := Validate_insert_field _ _ _ h0 pre post V1 V2 h1 h2
    simpa using this

theorem bad_param_gives_one_syntax_violation_witness :
    (iteration ⟨"Age", "min:ten", true, .slice [.int 1, .int 2]⟩
        ⟨⟨[NewValidationError ErrLenValidationFailed "Name"]⟩, [("Name", .string "ab")]⟩ =
      .next ⟨⟨[NewValidationError ErrLenValidationFailed "Name",
          NewValidationError ErrInvalidValidatorSyntax "Age"]⟩,
        [("Name", .string "ab"), ("Age", .slice [.int 1, .int 2])]⟩) ∧
    (Validate (.struct ([⟨"Name", "len:5", true, .string "ab"⟩] ++
        (⟨"Age", "min:ten", true, .slice [.int 1, .int 2]⟩ : Field) ::
        [⟨"Kind", "in:a,b", true, .string "c"⟩]))).outcome =
      .returned (Join ([NewValidationError ErrLenValidationFailed "Name"] ++
        [NewValidationError ErrInvalidValidatorSyntax "Age"] ++
        [NewValidationError ErrInValidationFailed "Kind"])) :=
  ⟨(bad_param_gives_one_syntax_violation ⟨"Age", "min:ten", true, .slice [.int 1, .int 2]⟩
      "min" "ten" (by decide) (by decide) rfl (by decide) (Or.inl (by decide))).1 _,
   ((bad_param_gives_one_syntax_violation ⟨"Age", "min:ten", true, .slice [.int 1, .int 2]⟩
      "min" "ten" (by decide) (by decide) rfl (by decide) (Or.inl (by decide))).2
      [⟨"Name", "len:5", true, .string "ab"⟩] [⟨"Kind", "in:a,b", true, .string "c"⟩]
      [NewValidationError ErrLenValidationFailed "Name"]
      [NewValidationError ErrInValidationFailed "Kind"] (by decide) (by decide)).1⟩

/-! ## An empty membership list -/

/-- An exported string or int field tagged `in:` gets exactly one syntax
violation. -/
theorem empty_in_list_on_scalar (f : Field) (hx : f.IsExported = true) (htag : f.Tag = "in:")
    (hv : (∃ str, f.value = .string str) ∨ (∃ n, f.value = .int n)) (st : LoopState) :
    iteration f st =
      .next ⟨⟨st.valid.errors ++ [NewValidationError ErrInvalidValidatorSyntax f.Name]⟩,
        st.stdout ++ [(f.Name, f.value)]⟩ := by
  have h := iteration_rule_param f "in" "" st (by rw [htag]; decide) (by decide) (by decide) hx
  rw [h]
  have h1 : ¬ ("in" : String) = "len" := by decide
  rcases hv with ⟨str, hv⟩ | ⟨n, hv⟩ <;>
    simp [dispatch, h1, hv, validateIn, ValidInStringSyntax, ValidInIntSyntax]
    <;> rfl

/-- C6 (defect of the code): for a field tagged `in:` the number of syntax
violations depends on the value.  A slice of two strings gets two, an empty
slice and a field of another kind get none, where the claim says exactly one;
the same slice tagged `len:` gets exactly one. -/
theorem empty_in_list_on_slice :
    (Validate (.struct [⟨"Tags", "in:", true, .slice [.string "a", .string "b"]⟩])).outcome =
      .returned (some (.joinError [NewValidationError ErrInvalidValidatorSyntax "Tags",
        NewValidationError ErrInvalidValidatorSyntax "Tags"])) ∧
    (Validate (.struct [⟨"Tags", "in:", true, .slice []⟩])).outcome = .returned none ∧
    (Validate (.struct [⟨"Flag", "in:", true, .other⟩])).outcome = .returned none ∧
    (Validate (.struct [⟨"Tags", "len:", true, .slice [.string "a", .string "b"]⟩])).outcome =
      .returned (some (.joinError [NewValidationError ErrInvalidValidatorSyntax "Tags"])) := by
  decide

/-! ## The rule `len` on a string -/

/-- C7 as stated fails: 9223372036854775808 is a non-negative decimal integer
and the string `ab` does not have that length, yet the field gets a syntax
violation and not a length violation, since the number does not fit an `int`. -/
theorem len_param_out_of_range :
    isDecimalInteger "9223372036854775808" = true ∧
    0 ≤ decimalValue "9223372036854775808" ∧
    (("ab" : String).utf8ByteSize : Int) ≠ decimalValue "9223372036854775808" ∧
    (Validate (.struct [⟨"Name", "len:9223372036854775808", true, .string "ab"⟩])).outcome =
      .returned (some (.joinError [NewValidationError ErrInvalidValidatorSyntax "Name"])) ∧
    (Validate (.struct [⟨"Name", "len:9223372036854775808", true, .string "ab"⟩])).outcome ≠
      .returned (some (.joinError [NewValidationError ErrLenValidationFailed "Name"])) := by
  decide

/-- C7, amended: for a string field tagged `len:p`, where `p` is a decimal
integer denoting a number `n` with `0 ≤ n < 2^63`, the tag splits into `len`
and `p`, and the rule adds nothing to the accumulator when the byte length of
the string is `n` and exactly `ErrLenValidationFailed` with the name of the
field otherwise; when the field is exported the loop body does just that, and
a record with this field alone returns `nil`, respectively that one
violation. -/
theorem len_on_string (f : Field) (p str : String)
    (htag : f.Tag = "len:" ++ p) (hv : f.value = .string str)
    (hd : isDecimalInteger p = true) (h0 : 0 ≤ decimalValue p)
    (hmax : decimalValue p < 2 ^ 63) :
    Split f.Tag ':' = ["len", p] ∧
    (∀ s : Valid, dispatch "len" p f.Name f.value s =
      ⟨s.errors ++
        (if (str.utf8ByteSize : Int) = decimalValue p then []
         else [NewValidationError ErrLenValidationFailed f.Name])⟩) ∧
    (f.IsExported = true →
      (∀ st : LoopState, iteration f st =
        .next ⟨⟨st.valid.errors ++
            (if (str.utf8ByteSize : Int) = decimalValue p then []
             else [NewValidationError ErrLenValidationFailed f.Name])⟩,
          st.stdout ++ [(f.Name, f.value)]⟩) ∧
      (Validate (.struct [f])).outcome =
        .returned (if (str.utf8ByteSize : Int) = decimalValue p then none
          else some (.joinError [NewValidationError ErrLenValidationFailed f.Name]))) := by
  have hcolon := decimal_no_colon p hd
  have htag1 : f.Tag = "len" ++ ":" ++ p := by rw [htag]; rfl
  have hsplit : Split f.Tag ':' = ["len", p] := by
    rw [htag1, Split_rule_param "len" p (by decide), Split_of_not_mem ':' p hcolon]
  have hdisp : ∀ s : Valid, dispatch "len" p f.Name f.value s =
      ⟨s.errors ++
        (if (str.utf8ByteSize : Int) = decimalValue p then []
         else [NewValidationError ErrLenValidationFailed f.Name])⟩ := by
    intro s
    have hA := Atoi_in_range p hd (by omega) hmax
    simp only [dispatch, if_true, hv, validateLen]
    rw [ValidLenSyntax_eq, hA]
    simp only [h0, and_self, if_true, ValidLen]
    split_ifs <;> simp_all
  refine ⟨hsplit, hdisp, fun hx => ?_⟩
  have hstep : ∀ st : LoopState, iteration f st =
      .next ⟨⟨st.valid.errors ++
          (if (str.utf8ByteSize : Int) = decimalValue p then []
           else [NewValidationError ErrLenValidationFailed f.Name])⟩,
        st.stdout ++ [(f.Name, f.value)]⟩ := by
    intro st
    rw [iteration_rule_param f "len" p st htag1 (by decide) hcolon hx, hdisp]
  refine ⟨hstep, ?_⟩
  rw [Validate_single_field f _ _ hstep]
  split_ifs <;> simp [Join]

theorem len_on_string_witness :
    (Validate (.struct [⟨"Name", "len:5", true, .string "abcde"⟩])).outcome = .returned none ∧
    (Validate (.struct [⟨"Name", "len:5", true, .string "ab"⟩])).outcome =
      .returned (some (.joinError [NewValidationError ErrLenValidationFailed "Name"])) :=
  ⟨((len_on_string ⟨"Name", "len:5", true, .string "abcde"⟩ "5" "abcde" (by decide) rfl
      (by decide) (by decide) (by decide)).2.2 rfl).2,
   ((len_on_string ⟨"Name", "len:5", true, .string "ab"⟩ "5" "ab" (by decide) rfl
      (by decide) (by decide) (by decide)).2.2 rfl).2⟩

/-! ## The rules `min` and `max` on an int or a string -/

/-- C8 as stated fails: 9223372036854775808 is a signed decimal integer and the
value 5 is below it, yet the int field gets a syntax violation and not a
minimum violation, since the number does not fit an `int`. -/
theorem min_param_out_of_range :
    isDecimalInteger "9223372036854775808" = true ∧
    (5 : Int) < decimalValue "9223372036854775808" ∧
    (Validate (.struct [⟨"Age", "min:9223372036854775808", true, .int 5⟩])).outcome =
      .returned (some (.joinError [NewValidationError ErrInvalidValidatorSyntax "Age"])) ∧
    (Validate (.struct [⟨"Age", "min:9223372036854775808", true, .int 5⟩])).outcome ≠
      .returned (some (.joinError [NewValidationError ErrMinValidationFailed "Age"])) := by
  decide

/-- C8, amended: for a field tagged `min:p`, where `p` is a decimal integer
denoting a number `k` with `-2^63 ≤ k < 2^63`, and whose value is the int `x`
or a string of byte length `x`, the tag splits into `min` and `p`, and the rule
adds exactly `ErrMinValidationFailed` with the name of the field to the
accumulator when `x < k` and nothing when `x ≥ k`; when the field is exported
the loop body does just that, and a record with this field alone returns that
one violation, respectively `nil`. -/
theorem min_on_scalar (f : Field) (p : String) (x : Int)
    (htag : f.Tag = "min:" ++ p)
    (hv : f.value = .int x ∨ ∃ str : String, f.value = .string str ∧ x = str.utf8ByteSize)
    (hd : isDecimalInteger p = true) (hlo : -(2 ^ 63) ≤ decimalValue p)
    (hhi : decimalValue p < 2 ^ 63) :
    Split f.Tag ':' = ["min", p] ∧
    (∀ s : Valid, dispatch "min" p f.Name f.value s =
      ⟨s.errors ++
        (if x < decimalValue p then [NewValidationError ErrMinValidationFailed f.Name] else [])⟩) ∧
    (f.IsExported = true →
      (∀ st : LoopState, iteration f st =
        .next ⟨⟨st.valid.errors ++
            (if x < decimalValue p then [NewValidationError ErrMinValidationFailed f.Name] else [])⟩,
          st.stdout ++ [(f.Name, f.value)]⟩) ∧
      (Validate (.struct [f])).outcome =
        .returned (if x < decimalValue p then
            some (.joinError [NewValidationError ErrMinValidationFailed f.Name])
          else none)) := by
  have hcolon := decimal_no_colon p hd
  have htag1 : f.Tag = "min" ++ ":" ++ p := by rw [htag]; rfl
  have hsplit : Split f.Tag ':' = ["min", p] := by
    rw [htag1, Split_rule_param "min" p (by decide), Split_of_not_mem ':' p hcolon]
  have hdisp : ∀ s : Valid, dispatch "min" p f.Name f.value s =
      ⟨s.errors ++
        (if x < decimalValue p then [NewValidationError ErrMinValidationFailed f.Name] else [])⟩ := by
    intro s
    have hA := Atoi_in_range p hd hlo hhi
    have h1 : ¬ ("min" : String) = "len" := by decide
    have h2 : ¬ ("min" : String) = "in" := by decide
    simp only [dispatch, h1, h2, if_false, if_true]
    rcases hv with hv | ⟨str, hv, hlen⟩
    · simp only [hv, validateMin]
      rw [ValidIntSyntax_eq, hA]
      simp only [if_true, ValidMin]
      split_ifs <;> simp_all
    · simp only [hv, validateMin]
      rw [ValidIntSyntax_eq, hA]
      simp only [if_true, ValidMin, ← hlen]
      split_ifs <;> simp_all
  refine ⟨hsplit, hdisp, fun hx => ?_⟩
  have hstep : ∀ st : LoopState, iteration f st =
      .next ⟨⟨st.valid.errors ++
          (if x < decimalValue p then [NewValidationError ErrMinValidationFailed f.Name] else [])⟩,
        st.stdout ++ [(f.Name, f.value)]⟩ := by
    intro st
    rw [iteration_rule_param f "min" p st htag1 (by decide) hcolon hx, hdisp]
  refine ⟨hstep, ?_⟩
  rw [Validate_single_field f _ _ hstep]
  split_ifs <;> simp [Join]

theorem min_on_scalar_witness :
    (Validate (.struct [⟨"Age", "min:10", true, .int 5⟩])).outcome =
      .returned (some (.joinError [NewValidationError ErrMinValidationFailed "Age"])) ∧
    (Validate (.struct [⟨"Age", "min:10", true, .int 10⟩])).outcome = .returned none ∧
    (Validate (.struct [⟨"Name", "min:-3", true, .string "é"⟩])).outcome = .returned none :=
  ⟨((min_on_scalar ⟨"Age", "min:10", true, .int 5⟩ "10" 5 (by decide) (Or.inl rfl)
      (by decide) (by decide) (by decide)).2.2 rfl).2,
   ((min_on_scalar ⟨"Age", "min:10", true, .int 10⟩ "10" 10 (by decide) (Or.inl rfl)
      (by decide) (by decide) (by decide)).2.2 rfl).2,
   ((min_on_scalar ⟨"Name", "min:-3", true, .string "é"⟩ "-3" 2 (by decide)
      (Or.inr ⟨"é", rfl, by decide⟩) (by decide) (by decide) (by decide)).2.2 rfl).2⟩

/-- C9 as stated fails: -9223372036854775809 is a signed decimal integer and the
value 5 is above it, yet the int field gets a syntax violation and not a
maximum violation, since the number does not fit an `int`. -/
theorem max_param_out_of_range :
    isDecimalInteger "-9223372036854775809" = true ∧
    decimalValue "-9223372036854775809" < (5 : Int) ∧
    (Validate (.struct [⟨"Age", "max:-9223372036854775809", true, .int 5⟩])).outcome =
      .returned (some (.joinError [NewValidationError ErrInvalidValidatorSyntax "Age"])) ∧
    (Validate (.struct [⟨"Age", "max:-9223372036854775809", true, .int 5⟩])).outcome ≠
      .returned (some (.joinError [NewValidationError ErrMaxValidationFailed "Age"])) := by
  decide

/-- C9, amended: for a field tagged `max:p`, where `p` is a decimal integer
denoting a number `k` with `-2^63 ≤ k < 2^63`, and whose value is the int `x`
or a string of byte length `x`, the tag splits into `max` and `p`, and the rule
adds exactly `ErrMaxValidationFailed` with the name of the field to the
accumulator when `x > k` and nothing when `x ≤ k`; when the field is exported
the loop body does just that, and a record with this field alone returns that
one violation, respectively `nil`. -/
theorem max_on_scalar (f : Field) (p : String) (x : Int)
    (htag : f.Tag = "max:" ++ p)
    (hv : f.value = .int x ∨ ∃ str : String, f.value = .string str ∧ x = str.utf8ByteSize)
    (hd : isDecimalInteger p = true) (hlo : -(2 ^ 63) ≤ decimalValue p)
    (hhi : decimalValue p < 2 ^ 63) :
    Split f.Tag ':' = ["max", p] ∧
    (∀ s : Valid, dispatch "max" p f.Name f.value s =
      ⟨s.errors ++
        (if decimalValue p < x then [NewValidationError ErrMaxValidationFailed f.Name] else [])⟩) ∧
    (f.IsExported = true →
      (∀ st : LoopState, iteration f st =
        .next ⟨⟨st.valid.errors ++
            (if decimalValue p < x then [NewValidationError ErrMaxValidationFailed f.Name] else [])⟩,
          st.stdout ++ [(f.Name, f.value)]⟩) ∧
      (Validate (.struct [f])).outcome =
        .returned (if decimalValue p < x then
            some (.joinError [NewValidationError ErrMaxValidationFailed f.Name])
          else none)) := by
  have hcolon := decimal_no_colon p hd
  have htag1 : f.Tag = "max" ++ ":" ++ p := by rw [htag]; rfl
  have hsplit : Split f.Tag ':' = ["max", p] := by
    rw [htag1, Split_rule_param "max" p (by decide), Split_of_not_mem ':' p hcolon]
  have hdisp : ∀ s : Valid, dispatch "max" p f.Name f.value s =
      ⟨s.errors ++
        (if decimalValue p < x then [NewValidationError ErrMaxValidationFailed f.Name] else [])⟩ := by
    intro s
    have hA := Atoi_in_range p hd hlo hhi
    have h1 : ¬ ("max" : String) = "len" := by decide
    have h2 : ¬ ("max" : String) = "in" := by decide
    have h3 : ¬ ("max" : String) = "min" := by decide
    simp only [dispatch, h1, h2, h3, if_false, if_true]
    rcases hv with hv | ⟨str, hv, hlen⟩
    · simp only [hv, validateMax]
      rw [ValidIntSyntax_eq, hA]
      simp only [if_true, ValidMax, gt_iff_lt]
      split_ifs <;> simp_all
    · simp only [hv, validateMax]
      rw [ValidIntSyntax_eq, hA]
      simp only [if_true, ValidMax, gt_iff_lt, ← hlen]
      split_ifs <;> simp_all
  refine ⟨hsplit, hdisp, fun hx => ?_⟩
  have hstep : ∀ st : LoopState, iteration f st =
      .next ⟨⟨st.valid.errors ++
          (if decimalValue p < x then [NewValidationError ErrMaxValidationFailed f.Name] else [])⟩,
        st.stdout ++ [(f.Name, f.value)]⟩ := by
    intro st
    rw [iteration_rule_param f "max" p st htag1 (by decide) hcolon hx, hdisp]
  refine ⟨hstep, ?_⟩
  rw [Validate_single_field f _ _ hstep]
  split_ifs <;> simp [Join]

theorem max_on_scalar_witness :
    (Validate (.struct [⟨"Age", "max:10", true, .int 11⟩])).outcome =
      .returned (some (.joinError [NewValidationError ErrMaxValidationFailed "Age"])) ∧
    (Validate (.struct [⟨"Age", "max:10", true, .int 10⟩])).outcome = .returned none ∧
    (Validate (.struct [⟨"Name", "max:1", true, .string "é"⟩])).outcome =
      .returned (some (.joinError [NewValidationError ErrMaxValidationFailed "Name"])) :=
  ⟨((max_on_scalar ⟨"Age", "max:10", true, .int 11⟩ "10" 11 (by decide) (Or.inl rfl)
      (by decide) (by decide) (by decide)).2.2 rfl).2,
   ((max_on_scalar ⟨"Age", "max:10", true, .int 10⟩ "10" 10 (by decide) (Or.inl rfl)
      (by decide) (by decide) (by decide)).2.2 rfl).2,
   ((max_on_scalar ⟨"Name", "max:1", true, .string "é"⟩ "1" 2 (by decide)
      (Or.inr ⟨"é", rfl, by decide⟩) (by decide) (by decide) (by decide)).2.2 rfl).2⟩

/-! ## The rule `in` on a string -/

/-- C10: for a string field tagged `in:p`, where `p` is not empty and contains
no `:`, the tag splits into `in` and `p`, and the rule adds nothing to the
accumulator exactly when the value is one of the entries of `p` split at every
`,`, and otherwise adds exactly `ErrInValidationFailed` with the name of the
field; when the field is exported the loop body does just that, and a record
with this field alone returns `nil`, respectively that one violation. -/
theorem in_on_string (f : Field) (p str : String)
    (htag : f.Tag = "in:" ++ p) (hv : f.value = .string str)
    (hne : p ≠ "") (hc : ':' ∉ p.data) :
    Split f.Tag ':' = ["in", p] ∧
    (∀ s : Valid, dispatch "in" p f.Name f.value s =
      ⟨s.errors ++
        (if str ∈ Split p ',' then []
         else [NewValidationError ErrInValidationFailed f.Name])⟩) ∧
    (f.IsExported = true →
      (∀ st : LoopState, iteration f st =
        .next ⟨⟨st.valid.errors ++
            (if str ∈ Split p ',' then []
             else [NewValidationError ErrInValidationFailed f.Name])⟩,
          st.stdout ++ [(f.Name, f.value)]⟩) ∧
      (Validate (.struct [f])).outcome =
        .returned (if str ∈ Split p ',' then none
          else some (.joinError [NewValidationError ErrInValidationFailed f.Name]))) := by
  have htag1 : f.Tag = "in" ++ ":" ++ p := by rw [htag]; rfl
  have hsplit : Split f.Tag ':' = ["in", p] := by
    rw [htag1, Split_rule_param "in" p (by decide), Split_of_not_mem ':' p hc]
  have hdisp : ∀ s : Valid, dispatch "in" p f.Name f.value s =
      ⟨s.errors ++
        (if str ∈ Split p ',' then []
         else [NewValidationError ErrInValidationFailed f.Name])⟩ := by
    intro s
    have h1 : ¬ ("in" : String) = "len" := by decide
    have h0 : ¬ p.utf8ByteSize = 0 := fun h => hne ((utf8ByteSize_eq_zero p).1 h)
    simp only [dispatch, h1, if_false, if_true, hv, validateIn, ValidInStringSyntax, h0,
      ValidInString]
    by_cases hm : str ∈ Split p ','
    · have := (Contains_eq_true str (Split p ',')).2 hm
      simp [hm, this]
    · have : Contains (Split p ',') str = false := by
        cases hcn : Contains (Split p ',') str with
        | false => rfl
        | true => exact absurd ((Contains_eq_true str (Split p ',')).1 hcn) hm
      simp [hm, this]
  refine ⟨hsplit, hdisp, fun hx => ?_⟩
  have hstep : ∀ st : LoopState, iteration f st =
      .next ⟨⟨st.valid.errors ++
          (if str ∈ Split p ',' then []
           else [NewValidationError ErrInValidationFailed f.Name])⟩,
        st.stdout ++ [(f.Name, f.value)]⟩ := by
    intro st
    rw [iteration_rule_param f "in" p st htag1 (by decide) hc hx, hdisp]
  refine ⟨hstep, ?_⟩
  rw [Validate_single_field f _ _ hstep]
  split_ifs <;> simp [Join]

theorem in_on_string_witness :
    (Validate (.struct [⟨"Kind", "in:a,b,c", true, .string "b"⟩])).outcome = .returned none ∧
    (Validate (.struct [⟨"Kind", "in:a,b,c", true, .string "z"⟩])).outcome =
      .returned (some (.joinError [NewValidationError ErrInValidationFailed "Kind"])) :=
  ⟨by
    have h := ((in_on_string ⟨"Kind", "in:a,b,c", true, .string "b"⟩ "a,b,c" "b" (by decide)
      rfl (by decide) (by decide)).2.2 rfl).2
    rw [h]
    decide,
   by
    have h := ((in_on_string ⟨"Kind", "in:a,b,c", true, .string "z"⟩ "a,b,c" "z" (by decide)
      rfl (by decide) (by decide)).2.2 rfl).2
    rw [h]
    decide⟩

/-! ## Theorems: `Split` is the inverse of joining with the separator -/

/-- No piece returned by `splitChars` contains the separator. -/
theorem splitChars_no_sep (sep : Char) :
    ∀ (cs : List Char), ∀ piece ∈ splitChars sep cs, sep ∉ piece
  | [], piece, h => by
    simp only [splitChars, List.mem_singleton] at h
    simp [h]
  | c :: cs, piece, h => by
    have ih := splitChars_no_sep sep cs
    unfold splitChars at h
    by_cases hc : c = sep
    · simp only [hc, if_true, List.mem_cons] at h
      rcases h with h | h
      · simp [h]
      · exact ih piece h
    · simp only [hc, if_false] at h
      obtain ⟨q, qs, hq⟩ := List.exists_cons_of_ne_nil (splitChars_ne_nil sep cs)
      rw [hq] at h ih
      simp only [List.mem_cons] at h
      rcases h with h | h
      · have hq1 : sep ∉ q := ih q (by simp)
        rw [h]
        intro hm
        rcases List.mem_cons.1 hm with e | e
        · exact hc e.symm
        · exact hq1 e
      · exact ih piece (by simp [h])

/-- Joining the pieces returned by `splitChars` with the separator gives the
text back. -/
theorem splitChars_intercalate (sep : Char) :
    ∀ (cs : List Char), List.intercalate [sep] (splitChars sep cs) = cs
  | [] => by simp [splitChars, List.intercalate]
  | c :: cs => by
    have ih := splitChars_intercalate sep cs
    obtain ⟨q, qs, hq⟩ := List.exists_cons_of_ne_nil (splitChars_ne_nil sep cs)
    unfold splitChars
    rw [hq] at ih ⊢
    by_cases hc : c = sep
    · simp only [hc, if_true]
      simp only [List.intercalate, List.intersperse, List.flatten] at ih ⊢
      simp [ih]
    · simp only [hc, if_false]
      cases qs with
      | nil =>
        simp only [List.intercalate, List.intersperse, List.flatten] at ih ⊢
        simp at ih ⊢
        exact ih
      | cons q2 qs =>
        simp only [List.intercalate, List.intersperse, List.flatten] at ih ⊢
        simp at ih ⊢
        exact ih

/-! ## Theorems: the value `strconv.Atoi` returns for any text -/

theorem parseUintLoop_not_digits_value :
    ∀ (cs : List Char) (n : Nat), n ≤ maxUint64 → cs.all Char.isDigit = false →
      parseUintLoop cs n =
        if maxUint64 < digitsValue (cs.takeWhile Char.isDigit) n then
          (maxUint64, some .ErrRange)
        else (0, some .ErrSyntax)
  | [], n, _, h => by simp at h
  | c :: cs, n, hn, h => by
    cases hc : c.isDigit with
    | false =>
      have : ¬ maxUint64 < n := by omega
      simp [parseUintLoop, hc, List.takeWhile, digitsValue, this]
    | true =>
      have hcs : cs.all Char.isDigit = false := by
        simpa [List.all_cons, hc] using h
      have hge := le_digitsValue (cs.takeWhile Char.isDigit) (n * 10 + (c.toNat - 48))
      simp only [parseUintLoop, hc, if_true, List.takeWhile, digitsValue]
      by_cases h1 : maxUint64 / 10 + 1 ≤ n
      · have : maxUint64 < digitsValue (cs.takeWhile Char.isDigit) (n * 10 + (c.toNat - 48)) := by
          simp only [maxUint64] at h1 ⊢
          omega
        simp [h1, this]
      · by_cases h2 : maxUint64 < n * 10 + (c.toNat - 48)
        · have : maxUint64 <
              digitsValue (cs.takeWhile Char.isDigit) (n * 10 + (c.toNat - 48)) := by omega
          simp [h1, h2, this]
        · simp only [h1, h2, if_false]
          exact parseUintLoop_not_digits_value cs _ (by omega) hcs

theorem checkRange_not_digits_value (neg : Bool) (cs : List Char)
    (h : cs = [] ∨ cs.all Char.isDigit = false) :
    (checkRange neg (ParseUint cs)).1 =
      if maxUint64 < digitsValue (cs.takeWhile Char.isDigit) 0 then
        (if neg = true then -(2 ^ 63) else 2 ^ 63 - 1)
      else 0 := by
  cases cs with
  | nil => simp [ParseUint, checkRange, digitsValue]
  | cons c r =>
    have h1 : (c :: r).all Char.isDigit = false := by
      rcases h with h | h
      · simp at h
      · exact h
    simp only [ParseUint]
    rw [parseUintLoop_not_digits_value (c :: r) 0 (by simp [maxUint64]) h1]
    by_cases hv : maxUint64 < digitsValue ((c :: r).takeWhile Char.isDigit) 0
    · rw [if_pos hv, if_pos hv]
      cases neg <;> simp [checkRange, maxUint64]
    · rw [if_neg hv, if_neg hv]
      simp [checkRange]

theorem Atoi_value (e : String) : (Atoi e).1 = entryValue e := by
  cases hd : isDecimalInteger e with
  | true =>
    rw [Atoi_of_decimal e hd]
    simp only [entryValue, hd, true_and, true_or, if_true]
    by_cases hr : -(2 ^ 63) ≤ decimalValue e ∧ decimalValue e < 2 ^ 63
    · simp only [hr, and_self, if_true]
    · simp only [hr, if_false, nearestBound]
      have hneg : decimalValue e < 0 ↔ e.data.head? = some '-' := by
        unfold decimalValue at hr ⊢
        cases he : e.data with
        | nil => simp
        | cons c r =>
          simp only [he] at hr
          by_cases hm : c = '-'
          · simp only [hm, if_true, List.head?_cons, iff_true] at hr ⊢
            omega
          · have hm1 : ¬ some c = some '-' := fun h => hm (Option.some.inj h)
            by_cases hp : c = '+'
            · subst hp
              have hpm : ¬ '+' = '-' := by decide
              simp only [hpm, if_false, if_true, List.head?_cons, hm1, iff_false] at hr ⊢
              omega
            · simp only [hm, hp, if_false, List.head?_cons, hm1, iff_false]
              omega
      by_cases hn : decimalValue e < 0
      · rw [if_pos hn, if_pos (hneg.1 hn)]
      · rw [if_neg hn, if_neg (fun h => hn (hneg.2 h))]
  | false =>
    have hd0 := hd
    unfold isDecimalInteger at hd
    have h : dropSign e.data = [] ∨ (dropSign e.data).all Char.isDigit = false := by
      cases hds : dropSign e.data with
      | nil => exact Or.inl rfl
      | cons c r => right; simpa [hds] using hd
    simp only [entryValue, hd0, Bool.false_eq_true, false_and, false_or, if_false,
      leadingDigitsOverflow, decide_eq_true_eq, nearestBound]
    unfold Atoi ParseInt
    cases hp : e.data with
    | nil => simp [dropSign, digitsValue]
    | cons c r =>
      simp only [hp, dropSign, List.head?_cons] at h ⊢
      by_cases hpl : c = '+'
      · simp only [hpl, true_or, if_true] at h ⊢
        rw [checkRange_not_digits_value false r h]
        have : ¬ some '+' = some '-' := by decide
        simp [this]
      · by_cases hm : c = '-'
        · simp only [hm, or_true, if_true] at h ⊢
          have hpm : ¬ '-' = '+' := by decide
          simp only [hpm, if_false]
          rw [checkRange_not_digits_value true r h]
          simp
        · simp only [hpl, hm, or_self, if_false] at h ⊢
          rw [checkRange_not_digits_value false (c :: r) h]
          have hm1 : ¬ some c = some '-' := fun h => hm (Option.some.inj h)
          simp [hm1]

/-! ## The rule `in` on an int -/

/-- C11 as stated fails.  The entry 9223372036854775808 is a number too large
for `int`; the claimed list is `[0]`, which would accept the value 0, but the
parsed list is `[9223372036854775807]`: the value 0 is rejected and the largest
`int` is accepted.  And for the tag `in:1:2,3` the rule is handed the text `1`
only, so the value 3 is rejected. -/
theorem in_int_entry_out_of_range :
    (ValidInIntSyntax "9223372036854775808" "Code" NewValid).1 =
      ([9223372036854775807], true) ∧
    (Validate (.struct [⟨"Code", "in:9223372036854775808", true, .int 0⟩])).outcome =
      .returned (some (.joinError [NewValidationError ErrInValidationFailed "Code"])) ∧
    (Validate (.struct [⟨"Code", "in:9223372036854775808", true,
        .int 9223372036854775807⟩])).outcome = .returned none ∧
    (Validate (.struct [⟨"Code", "in:1:2,3", true, .int 3⟩])).outcome =
      .returned (some (.joinError [NewValidationError ErrInValidationFailed "Code"])) := by
  decide

/-- C11, amended: for an int field tagged `in:p`, where `p` is not empty and
contains no `:`, the tag splits into `in` and `p`; parsing the list adds no
violation and gives, in order, one integer per entry of `p` split at every `,`:
the number the entry denotes when it is a decimal integer that fits `int`, the
nearest bound of `int` when it is a decimal integer that does not fit or its
leading digits overflow, and 0 for any other entry.  The rule adds nothing to
the accumulator exactly when the value of the field occurs in that list and
otherwise exactly `ErrInValidationFailed` with the name of the field; when the
field is exported the loop body does just that, and a record with this field
alone returns `nil`, respectively that one violation. -/
theorem in_on_int (f : Field) (p : String) (n : Int)
    (htag : f.Tag = "in:" ++ p) (hv : f.value = .int n)
    (hne : p ≠ "") (hc : ':' ∉ p.data) :
    Split f.Tag ':' = ["in", p] ∧
    (∀ s : Valid, ValidInIntSyntax p f.Name s = (((Split p ',').map entryValue, true), s)) ∧
    (∀ s : Valid, dispatch "in" p f.Name f.value s =
      ⟨s.errors ++
        (if n ∈ (Split p ',').map entryValue then []
         else [NewValidationError ErrInValidationFailed f.Name])⟩) ∧
    (f.IsExported = true →
      (∀ st : LoopState, iteration f st =
        .next ⟨⟨st.valid.errors ++
            (if n ∈ (Split p ',').map entryValue then []
             else [NewValidationError ErrInValidationFailed f.Name])⟩,
          st.stdout ++ [(f.Name, f.value)]⟩) ∧
      (Validate (.struct [f])).outcome =
        .returned (if n ∈ (Split p ',').map entryValue then none
          else some (.joinError [NewValidationError ErrInValidationFailed f.Name]))) := by
  have htag1 : f.Tag = "in" ++ ":" ++ p := by rw [htag]; rfl
  have hsplit : Split f.Tag ':' = ["in", p] := by
    rw [htag1, Split_rule_param "in" p (by decide), Split_of_not_mem ':' p hc]
  have h0 : ¬ p.utf8ByteSize = 0 := fun h => hne ((utf8ByteSize_eq_zero p).1 h)
  have hparse : ∀ s : Valid,
      ValidInIntSyntax p f.Name s = (((Split p ',').map entryValue, true), s) := by
    intro s
    have hmap : (Split p ',').map (fun str => (Atoi str).1) = (Split p ',').map entryValue :=
      List.map_congr_left fun e _ => Atoi_value e
    simp only [ValidInIntSyntax, h0, if_false, hmap]
  have hdisp : ∀ s : Valid, dispatch "in" p f.Name f.value s =
      ⟨s.errors ++
        (if n ∈ (Split p ',').map entryValue then []
         else [NewValidationError ErrInValidationFailed f.Name])⟩ := by
    intro s
    have h1 : ¬ ("in" : String) = "len" := by decide
    simp only [dispatch, h1, if_false, if_true, hv, validateIn, hparse, ValidInInt]
    by_cases hm : n ∈ (Split p ',').map entryValue
    · have := (Contains_eq_true n ((Split p ',').map entryValue)).2 hm
      simp [hm, this]
    · have : Contains ((Split p ',').map entryValue) n = false := by
        cases hcn : Contains ((Split p ',').map entryValue) n with
        | false => rfl
        | true => exact absurd ((Contains_eq_true n _).1 hcn) hm
      simp [hm, this]
  refine ⟨hsplit, hparse, hdisp, fun hx => ?_⟩
  have hstep : ∀ st : LoopState, iteration f st =
      .next ⟨⟨st.valid.errors ++
          (if n ∈ (Split p ',').map entryValue then []
           else [NewValidationError ErrInValidationFailed f.Name])⟩,
        st.stdout ++ [(f.Name, f.value)]⟩ := by
    intro st
    rw [iteration_rule_param f "in" p st htag1 (by decide) hc hx, hdisp]
  refine ⟨hstep, ?_⟩
  rw [Validate_single_field f _ _ hstep]
  split_ifs <;> simp [Join]

theorem in_on_int_witness :
    (ValidInIntSyntax "x,5" "Code" NewValid).1 = ([0, 5], true) ∧
    (Validate (.struct [⟨"Code", "in:x,5", true, .int 0⟩])).outcome = .returned none ∧
    (Validate (.struct [⟨"Code", "in:x,5", true, .int 7⟩])).outcome =
      .returned (some (.joinError [NewValidationError ErrInValidationFailed "Code"])) :=
  ⟨by
    have h := (in_on_int ⟨"Code", "in:x,5", true, .int 0⟩ "x,5" 0 (by decide) rfl
      (by decide) (by decide)).2.1 NewValid
    rw [show ValidInIntSyntax "x,5" "Code" NewValid = _ from h]
    decide,
   by
    have h := ((in_on_int ⟨"Code", "in:x,5", true, .int 0⟩ "x,5" 0 (by decide) rfl
      (by decide) (by decide)).2.2.2 rfl).2
    rw [h]
    decide,
   by
    have h := ((in_on_int ⟨"Code", "in:x,5", true, .int 7⟩ "x,5" 7 (by decide) rfl
      (by decide) (by decide)).2.2.2 rfl).2
    rw [h]
    decide⟩

/-! ## Theorems: a rule on a slice -/

theorem validateLenElems_flatMap (val fieldName : String) :
    ∀ (es : List Value) (s : Valid),
      validateLenElems val fieldName es s =
        ⟨s.errors ++ es.flatMap fun e => (validateLen val fieldName e NewValid).errors⟩
  | [], s => by simp [validateLenElems]
  | e :: es, s => by
    rw [validateLenElems, validateLenElems_flatMap val fieldName es, validateLen_frame]
    simp [List.append_assoc]

theorem validateMinElems_flatMap (val fieldName : String) :
    ∀ (es : List Value) (s : Valid),
      validateMinElems val fieldName es s =
        ⟨s.errors ++ es.flatMap fun e => (validateMin val fieldName e NewValid).errors⟩
  | [], s => by simp [validateMinElems]
  | e :: es, s => by
    rw [validateMinElems, validateMinElems_flatMap val fieldName es, validateMin_frame]
    simp [List.append_assoc]

theorem validateMaxElems_flatMap (val fieldName : String) :
    ∀ (es : List Value) (s : Valid),
      validateMaxElems val fieldName es s =
        ⟨s.errors ++ es.flatMap fun e => (validateMax val fieldName e NewValid).errors⟩
  | [], s => by simp [validateMaxElems]
  | e :: es, s => by
    rw [validateMaxElems, validateMaxElems_flatMap val fieldName es, validateMax_frame]
    simp [List.append_assoc]

theorem validateInElems_flatMap (val fieldName : String) :
    ∀ (es : List Value) (s : Valid),
      validateInElems val fieldName es s =
        ⟨s.errors ++ es.flatMap fun e => (validateIn val fieldName e NewValid).errors⟩
  | [], s => by simp [validateInElems]
  | e :: es, s => by
    rw [validateInElems, validateInElems_flatMap val fieldName es, validateIn_frame]
    simp [List.append_assoc]

theorem dispatch_slice (rule val fieldName : String) (es : List Value) (s : Valid)
    (h : rule = "in" ∨ (rule = "len" ∧ (Atoi val).2 = none ∧ 0 ≤ (Atoi val).1) ∨
      ((rule = "min" ∨ rule = "max") ∧ (Atoi val).2 = none)) :
    dispatch rule val fieldName (.slice es) s =
      ⟨s.errors ++ es.flatMap fun e => (dispatch rule val fieldName e NewValid).errors⟩ := by
  have h1 : ¬ ("in" : String) = "len" := by decide
  have h2 : ¬ ("min" : String) = "len" := by decide
  have h3 : ¬ ("min" : String) = "in" := by decide
  have h4 : ¬ ("max" : String) = "len" := by decide
  have h5 : ¬ ("max" : String) = "in" := by decide
  have h6 : ¬ ("max" : String) = "min" := by decide
  rcases h with h | ⟨h, hA⟩ | ⟨h | h, hA⟩ <;> subst h
  · simp only [dispatch, h1, if_false, if_true]
    rw [validateIn, validateInElems_flatMap]
  · simp only [dispatch, if_true]
    rw [validateLen, ValidLenSyntax_eq, if_pos hA]
    exact validateLenElems_flatMap val fieldName es s
  · simp only [dispatch, h2, h3, if_false, if_true]
    rw [validateMin, ValidIntSyntax_eq, if_pos hA]
    exact validateMinElems_flatMap val fieldName es s
  · simp only [dispatch, h4, h5, h6, if_false, if_true]
    rw [validateMax, ValidIntSyntax_eq, if_pos hA]
    exact validateMaxElems_flatMap val fieldName es s

theorem Split_ne_nil (s : String) (sep : Char) : Split s sep ≠ [] := by
  simp [Split, splitChars_ne_nil]

theorem fieldViolations_of_split (f : Field) (rule val : String) (rest : List String)
    (hs : Split f.Tag ':' = rule :: val :: rest) (hx : f.IsExported = true) :
    fieldViolations f = (dispatch rule val f.Name f.value NewValid).errors := by
  have hne : f.Tag ≠ "" := by
    intro h
    rw [h, show Split "" ':' = [""] from by decide] at hs
    simp at hs
  simp [fieldViolations, iteration, hne, hx, hs]

theorem fieldViolations_unexported (f : Field) (hx : f.IsExported = false) :
    fieldViolations f = [] := by
  unfold fieldViolations iteration
  by_cases h : f.Tag = ""
  · simp [h, NewValid]
  · simp [h, hx]

theorem wellFormedParam_spec (rule p : String)
    (hrule : rule = "len" ∨ rule = "in" ∨ rule = "min" ∨ rule = "max")
    (hwf : wellFormedParam rule p = true) :
    rule = "in" ∨
      (':' ∉ p.data ∧
        ((rule = "len" ∧ (Atoi p).2 = none ∧ 0 ≤ (Atoi p).1) ∨
          ((rule = "min" ∨ rule = "max") ∧ (Atoi p).2 = none))) := by
  have h2 : ¬ ("min" : String) = "len" := by decide
  have h3 : ¬ ("min" : String) = "in" := by decide
  have h4 : ¬ ("max" : String) = "len" := by decide
  have h5 : ¬ ("max" : String) = "in" := by decide
  unfold wellFormedParam at hwf
  rcases hrule with h | h | h | h <;> subst h
  · simp only [if_true, Bool.and_eq_true, decide_eq_true_eq] at hwf
    obtain ⟨⟨hd, h0⟩, hhi⟩ := hwf
    have hA := Atoi_in_range p hd (by omega) hhi
    exact Or.inr ⟨decimal_no_colon p hd, Or.inl ⟨rfl, by rw [hA], by rw [hA]; exact h0⟩⟩
  · exact Or.inl rfl
  · simp only [h2, h3, if_false, Bool.and_eq_true, decide_eq_true_eq] at hwf
    obtain ⟨⟨hd, hlo⟩, hhi⟩ := hwf
    have hA := Atoi_in_range p hd hlo hhi
    exact Or.inr ⟨decimal_no_colon p hd, Or.inr ⟨Or.inl rfl, by rw [hA]⟩⟩
  · simp only [h4, h5, if_false, Bool.and_eq_true, decide_eq_true_eq] at hwf
    obtain ⟨⟨hd, hlo⟩, hhi⟩ := hwf
    have hA := Atoi_in_range p hd hlo hhi
    exact Or.inr ⟨decimal_no_colon p hd, Or.inr ⟨Or.inr rfl, by rw [hA]⟩⟩

theorem Split_tag_of_wellFormed (rule p : String)
    (hrule : rule = "len" ∨ rule = "in" ∨ rule = "min" ∨ rule = "max")
    (hwf : wellFormedParam rule p = true) :
    ∃ val rest, Split (rule ++ ":" ++ p) ':' = rule :: val :: rest ∧
      (rule = "in" ∨ (rule = "len" ∧ (Atoi val).2 = none ∧ 0 ≤ (Atoi val).1) ∨
        ((rule = "min" ∨ rule = "max") ∧ (Atoi val).2 = none)) := by
  have hr : ':' ∉ rule.data := by
    rcases hrule with h | h | h | h <;> subst h <;> decide
  rw [Split_rule_param rule p hr]
  rcases wellFormedParam_spec rule p hrule hwf with h | ⟨hc, h⟩
  · obtain ⟨a, rest, ha⟩ := List.exists_cons_of_ne_nil (Split_ne_nil p ':')
    exact ⟨a, rest, by rw [ha], Or.inl h⟩
  · exact ⟨p, [], by rw [Split_of_not_mem ':' p hc], Or.inr h⟩

/-! ## A rule on a sequence field -/

/-- C12: for a field whose value is a sequence and whose tag is `rule:p` with
`rule` one of the four rules and `p` well formed for it, the violations of the
field are the concatenation, in element order, of the violations of the same
field with each element in place of the sequence; when the field is exported
the loop body adds exactly these to the accumulator.  For an exported
sequence of strings tagged `len:p` the violations are as many length
violations as there are elements whose byte length differs from the number
`p` denotes. -/
theorem slice_is_elementwise (f : Field) (rule p : String) (es : List Value)
    (hrule : rule = "len" ∨ rule = "in" ∨ rule = "min" ∨ rule = "max")
    (htag : f.Tag = rule ++ ":" ++ p) (hwf : wellFormedParam rule p = true)
    (hv : f.value = .slice es) :
    fieldViolations f = es.flatMap (fun e => fieldViolations { f with value := e }) ∧
    (f.IsExported = true → ∀ st : LoopState, iteration f st =
      .next ⟨⟨st.valid.errors ++
          es.flatMap (fun e => fieldViolations { f with value := e })⟩,
        st.stdout ++ [(f.Name, f.value)]⟩) ∧
    (f.IsExported = true → rule = "len" → ∀ strs : List String, es = strs.map .string →
      fieldViolations f =
        List.replicate (strs.countP fun s => decide ((s.utf8ByteSize : Int) ≠ decimalValue p))
          (NewValidationError ErrLenValidationFailed f.Name)) := by
  obtain ⟨val, rest, hs, hcase⟩ := Split_tag_of_wellFormed rule p hrule hwf
  rw [← htag] at hs
  have hmain : fieldViolations f =
      es.flatMap (fun e => fieldViolations { f with value := e }) := by
    rcases Bool.eq_false_or_eq_true f.IsExported with hx | hx
    · rw [fieldViolations_of_split f rule val rest hs hx, hv,
        dispatch_slice rule val f.Name es NewValid hcase]
      have : ∀ e, fieldViolations { f with value := e } =
          (dispatch rule val f.Name e NewValid).errors :=
        fun e => fieldViolations_of_split { f with value := e } rule val rest hs hx
      simp only [this, NewValid, List.nil_append]
    · rw [fieldViolations_unexported f hx]
      have : ∀ e, fieldViolations { f with value := e } = [] :=
        fun e => fieldViolations_unexported _ hx
      simp [this, List.flatMap]
  refine ⟨hmain, fun hx st => ?_, fun hx hlen strs hstrs => ?_⟩
  · have hc : ':' ∈ f.Tag.data := by
      rw [htag]
      simp [String.data_append]
    have hne : f.Tag ≠ "" := htag ▸ tag_ne_empty rule p
    rw [iteration_wellformed f st hne hx hc, hmain]
  · subst hlen
    obtain ⟨hd, h0, hhi⟩ : isDecimalInteger p = true ∧ 0 ≤ decimalValue p ∧
        decimalValue p < 2 ^ 63 := by
      simpa [wellFormedParam, and_assoc] using hwf
    have hA := Atoi_in_range p hd (by omega) hhi
    have hsp : Split f.Tag ':' = ["len", p] := by
      rw [htag, Split_rule_param "len" p (by decide),
        Split_of_not_mem ':' p (decimal_no_colon p hd)]
    rw [hmain, hstrs]
    have hone : ∀ s : String, fieldViolations { f with value := Value.string s } =
        if (s.utf8ByteSize : Int) ≠ decimalValue p then
          [NewValidationError ErrLenValidationFailed f.Name]
        else [] := by
      intro s
      rw [fieldViolations_of_split { f with value := Value.string s } "len" p [] hsp hx]
      simp only [dispatch, if_true, validateLen]
      rw [ValidLenSyntax_eq, hA]
      simp only [h0, and_self, if_true, ValidLen, NewValid]
      split_ifs <;> simp
    clear hstrs hmain hv
    induction strs with
    | nil => simp
    | cons s strs ih =>
      simp only [List.map_cons, List.flatMap_cons, hone, List.countP_cons]
      rw [ih]
      by_cases hs1 : (s.utf8ByteSize : Int) = decimalValue p
      · simp [hs1]
      · simp [hs1, List.replicate_succ']
        rw [← List.replicate_succ, List.replicate_succ']

theorem slice_is_elementwise_witness :
    fieldViolations ⟨"Tags", "len:3", true, .slice [.string "abc", .string "ab"]⟩ =
      [NewValidationError ErrLenValidationFailed "Tags"] ∧
    fieldViolations ⟨"Grid", "min:2", true, .slice [.slice [.int 1, .int 5], .slice [.int 0]]⟩ =
      [NewValidationError ErrMinValidationFailed "Grid",
        NewValidationError ErrMinValidationFailed "Grid"] :=
  ⟨by
    have h := (slice_is_elementwise ⟨"Tags", "len:3", true, .slice [.string "abc", .string "ab"]⟩
      "len" "3" [.string "abc", .string "ab"] (by decide) (by decide) (by decide) rfl).2.2
      rfl rfl ["abc", "ab"] rfl
    rw [h]
    decide,
   by
    have h := (slice_is_elementwise
      ⟨"Grid", "min:2", true, .slice [.slice [.int 1, .int 5], .slice [.int 0]]⟩
      "min" "2" [.slice [.int 1, .int 5], .slice [.int 0]] (by decide) (by decide) (by decide)
      rfl).1
    rw [h]
    decide⟩

/-! ## Names that are not rules -/

theorem iteration_silent (f : Field) (v : Valid) (o1 o2 : List (String × Value)) :
    (iteration f ⟨v, o1⟩).silent = (iteration f ⟨v, o2⟩).silent := by
  unfold iteration
  split_ifs
  · rfl
  · rfl
  · split <;> rfl

theorem validateFields_silent :
    ∀ (fields : List Field) (v : Valid) (o1 o2 : List (String × Value)),
      (validateFields fields ⟨v, o1⟩).silent = (validateFields fields ⟨v, o2⟩).silent
  | [], v, o1, o2 => rfl
  | f :: fs, v, o1, o2 => by
    have h := iteration_silent f v o1 o2
    simp only [validateFields]
    cases h1 : iteration f ⟨v, o1⟩ with
    | next st1 =>
      cases h2 : iteration f ⟨v, o2⟩ with
      | next st2 =>
        rw [h1, h2] at h
        simp only [Control.silent, Sum.inl.injEq] at h
        obtain ⟨v1, p1⟩ := st1
        obtain ⟨v2, p2⟩ := st2
        simp only at h
        subst h
        exact validateFields_silent fs v1 p1 p2
      | exit r2 =>
        rw [h1, h2] at h
        simp [Control.silent] at h
    | exit r1 =>
      cases h2 : iteration f ⟨v, o2⟩ with
      | next st2 =>
        rw [h1, h2] at h
        simp [Control.silent] at h
      | exit r2 =>
        rw [h1, h2] at h
        simpa [Control.silent] using h

theorem Validate_outcome_of_silent (fs gs : List Field)
    (h : (validateFields fs ⟨NewValid, []⟩).silent = (validateFields gs ⟨NewValid, []⟩).silent) :
    (Validate (.struct fs)).outcome = (Validate (.struct gs)).outcome := by
  cases h1 : validateFields fs ⟨NewValid, []⟩ with
  | next st1 =>
    cases h2 : validateFields gs ⟨NewValid, []⟩ with
    | next st2 =>
      rw [h1, h2] at h
      simp only [Control.silent, Sum.inl.injEq] at h
      rw [Validate_struct_next fs st1 h1, Validate_struct_next gs st2 h2, h]
    | exit r2 =>
      rw [h1, h2] at h
      simp [Control.silent] at h
  | exit r1 =>
    cases h2 : validateFields gs ⟨NewValid, []⟩ with
    | next st2 =>
      rw [h1, h2] at h
      simp [Control.silent] at h
    | exit r2 =>
      rw [h1, h2] at h
      simp only [Control.silent, Sum.inr.injEq] at h
      rw [Validate_struct_exit fs r1 h1, Validate_struct_exit gs r2 h2, h]

/-- C13: an exported field whose tag is `name:p`, with `name` free of `:` and
not one of `len`, `in`, `min`, `max`, leaves the accumulator as it is whatever
`p` and the value are; and in any record, `Validate` returns the same result
as for the record with the annotation of this field removed. -/
theorem unknown_rule_is_ignored (f : Field) (name p : String)
    (htag : f.Tag = name ++ ":" ++ p) (hn : ':' ∉ name.data)
    (hname : name ≠ "len" ∧ name ≠ "in" ∧ name ≠ "min" ∧ name ≠ "max")
    (hx : f.IsExported = true) :
    (∀ st : LoopState,
      iteration f st = .next ⟨st.valid, st.stdout ++ [(f.Name, f.value)]⟩) ∧
    (∀ pre post : List Field,
      (Validate (.struct (pre ++ f :: post))).outcome =
        (Validate (.struct (pre ++ { f with Tag := "" } :: post))).outcome) := by
  have hstep : ∀ st : LoopState,
      iteration f st = .next ⟨st.valid, st.stdout ++ [(f.Name, f.value)]⟩ := by
    intro st
    obtain ⟨a, rest, ha⟩ := List.exists_cons_of_ne_nil (Split_ne_nil p ':')
    have hs : Split f.Tag ':' = name :: a :: rest := by
      rw [htag, Split_rule_param name p hn, ha]
    have hne : f.Tag ≠ "" := htag ▸ tag_ne_empty name p
    simp [iteration, hne, hx, hs, dispatch, hname.1, hname.2.1, hname.2.2.1, hname.2.2.2]
  refine ⟨hstep, fun pre post => ?_⟩
  apply Validate_outcome_of_silent
  rw [validateFields_append, validateFields_append]
  cases validateFields pre ⟨NewValid, []⟩ with
  | exit r => rfl
  | next st1 =>
    have h0 : iteration { f with Tag := "" } st1 = .next st1 := by simp [iteration]
    simp only [validateFields, hstep, h0]
    exact validateFields_silent post st1.valid _ _

theorem unknown_rule_is_ignored_witness :
    (Validate (.struct ([⟨"Name", "len:5", true, .string "ab"⟩] ++
        (⟨"Mail", "regexp:^a:b$", true, .string "zzz"⟩ : Field) ::
        [⟨"Age", "min:10", true, .int 5⟩]))).outcome =
      .returned (some (.joinError [NewValidationError ErrLenValidationFailed "Name",
        NewValidationError ErrMinValidationFailed "Age"])) :=
  by
    have h := (unknown_rule_is_ignored ⟨"Mail", "regexp:^a:b$", true, .string "zzz"⟩
      "regexp" "^a:b$" (by decide) (by decide) (by decide) rfl).2
      [⟨"Name", "len:5", true, .string "ab"⟩] [⟨"Age", "min:10", true, .int 5⟩]
    rw [h]
    decide

/-! ## Records without annotations -/

/-- C14: for a struct in which no field has a `validate` annotation, the empty
struct and structs with unexported fields included, `Validate` returns `nil`
(and prints nothing). -/
theorem Validate_unannotated (fields : List Field) (h : ∀ f ∈ fields, f.Tag = "") :
    Validate (.struct fields) = ⟨.returned none, []⟩ := by
  have hw : ∀ f ∈ fields, f.Tag ≠ "" → f.IsExported = true ∧ ':' ∈ f.Tag.data :=
    fun f hf hne => absurd (h f hf) hne
  have hv : fields.flatMap fieldViolations = [] := by
    simp only [List.flatMap_eq_nil_iff]
    exact fun f hf => fieldViolations_unannotated f (h f hf)
  have hp : printed fields = [] := by
    simp only [printed, List.map_eq_nil_iff, List.filter_eq_nil_iff]
    intro f hf
    simp [h f hf]
  rw [Validate_struct_next fields _ (validateFields_wellformed fields _ hw)]
  simp [hv, hp, NewValid, Join]

theorem Validate_unannotated_witness :
    Validate (.struct []) = ⟨.returned none, []⟩ ∧
    Validate (.struct [⟨"name", "", false, .string "x"⟩, ⟨"Age", "", true, .int 3⟩]) =
      ⟨.returned none, []⟩ :=
  ⟨Validate_unannotated [] (by simp),
   Validate_unannotated [⟨"name", "", false, .string "x"⟩, ⟨"Age", "", true, .int 3⟩]
    (by decide)⟩

/-! ## Parameters that contain a colon -/

/-- C15 (defect of the code): the tag is split at every `:` and only the text
between the first and the second `:` is handed to the rule.  For the tag
`in:a:b,c` the membership list is `a` alone, so the value `a:b` is rejected
(and `a` accepted); for the tag `min:1:2` the parameter is `1`, so there is no
syntax violation. -/
theorem tag_is_split_at_every_colon :
    Split "in:a:b,c" ':' = ["in", "a", "b,c"] ∧
    (Validate (.struct [⟨"Kind", "in:a:b,c", true, .string "a:b"⟩])).outcome =
      .returned (some (.joinError [NewValidationError ErrInValidationFailed "Kind"])) ∧
    (Validate (.struct [⟨"Kind", "in:a:b,c", true, .string "a"⟩])).outcome = .returned none ∧
    (Validate (.struct [⟨"Age", "min:1:2", true, .int 5⟩])).outcome = .returned none ∧
    (Validate (.struct [⟨"Age", "min:1:2", true, .int 0⟩])).outcome =
      .returned (some (.joinError [NewValidationError ErrMinValidationFailed "Age"])) := by
  decide

/-! ## Pointers to structs -/

/-- C16: `Validate` on a pointer to a struct is `Validate` on the struct, result
and output alike; only one level is dereferenced, a pointer to a pointer to a
struct is not a struct. -/
theorem Validate_pointer_to_struct (fields : List Field) :
    Validate (.ptr (some (.struct fields))) = Validate (.struct fields) ∧
    Validate (.ptr (some (.ptr (some (.struct fields))))) =
      ⟨.returned (some ErrNotStruct), []⟩ :=
  ⟨rfl, rfl⟩

/-! ## Standard output -/

/-- C17 (defect of the code): `Validate` writes to standard output.  For a
struct with the field `Name string` tagged `len:5` and the value `abcde` it
returns `nil` and has printed the name and the value of the field. -/
theorem Validate_prints_fields :
    Validate (.struct [⟨"Name", "len:5", true, .string "abcde"⟩]) =
      ⟨.returned none, [("Name", .string "abcde")]⟩ ∧
    (Validate (.struct [⟨"Name", "len:5", true, .string "abcde"⟩])).stdout.length = 1 :=
  ⟨rfl, rfl⟩

/-- In every record whose annotated fields are exported and have a tag with a
`:`, `Validate` prints one line per annotated field. -/
theorem Validate_stdout (fields : List Field)
    (h : ∀ f ∈ fields, f.Tag ≠ "" → f.IsExported = true ∧ ':' ∈ f.Tag.data) :
    (Validate (.struct fields)).stdout = printed fields := by
  rw [Validate_struct_next fields _ (validateFields_wellformed fields _ h)]
  simp

/-! ## Theorems: the kinds of violation a rule generates -/

mutual
theorem validateLen_kinds (val fieldName : String) :
    ∀ (v : Value) (e : GoError), e ∈ (validateLen val fieldName v NewValid).errors →
      e = NewValidationError ErrInvalidValidatorSyntax fieldName ∨
        e = NewValidationError ErrLenValidationFailed fieldName
  | v, e, h => by
    unfold validateLen at h
    rw [ValidLenSyntax_eq] at h
    by_cases hA : (Atoi val).2 = none ∧ 0 ≤ (Atoi val).1
    · rw [if_pos hA] at h
      cases v with
      | slice es => exact validateLenElems_kinds val fieldName es e h
      | string str =>
        simp only [ValidLen, NewValid] at h
        split at h <;> simp at h
        exact Or.inr h
      | _ => simp [NewValid] at h
    · rw [if_neg hA] at h
      simp [NewValid] at h
      exact Or.inl h
theorem validateLenElems_kinds (val fieldName : String) :
    ∀ (es : List Value) (e : GoError),
      e ∈ (validateLenElems val fieldName es NewValid).errors →
      e = NewValidationError ErrInvalidValidatorSyntax fieldName ∨
        e = NewValidationError ErrLenValidationFailed fieldName
  | [], e, h => by simp [validateLenElems, NewValid] at h
  | x :: es, e, h => by
    rw [validateLenElems, validateLenElems_frame] at h
    rcases List.mem_append.1 h with h | h
    · exact validateLen_kinds val fieldName x e h
    · exact validateLenElems_kinds val fieldName es e h
end

mutual
theorem validateMin_kinds (val fieldName : String) :
    ∀ (v : Value) (e : GoError), e ∈ (validateMin val fieldName v NewValid).errors →
      e = NewValidationError ErrInvalidValidatorSyntax fieldName ∨
        e = NewValidationError ErrMinValidationFailed fieldName
  | v, e, h => by
    unfold validateMin at h
    rw [ValidIntSyntax_eq] at h
    by_cases hA : (Atoi val).2 = none
    · rw [if_pos hA] at h
      cases v with
      | slice es => exact validateMinElems_kinds val fieldName es e h
      | string str =>
        simp only [ValidMin, NewValid] at h
        split at h <;> simp at h
        exact Or.inr h
      | int n =>
        simp only [ValidMin, NewValid] at h
        split at h <;> simp at h
        exact Or.inr h
      | _ => simp [NewValid] at h
    · rw [if_neg hA] at h
      simp [NewValid] at h
      exact Or.inl h
theorem validateMinElems_kinds (val fieldName : String) :
    ∀ (es : List Value) (e : GoError),
      e ∈ (validateMinElems val fieldName es NewValid).errors →
      e = NewValidationError ErrInvalidValidatorSyntax fieldName ∨
        e = NewValidationError ErrMinValidationFailed fieldName
  | [], e, h => by simp [validateMinElems, NewValid] at h
  | x :: es, e, h => by
    rw [validateMinElems, validateMinElems_frame] at h
    rcases List.mem_append.1 h with h | h
    · exact validateMin_kinds val fieldName x e h
    · exact validateMinElems_kinds val fieldName es e h
end

mutual
theorem validateMax_kinds (val fieldName : String) :
    ∀ (v : Value) (e : GoError), e ∈ (validateMax val fieldName v NewValid).errors →
      e = NewValidationError ErrInvalidValidatorSyntax fieldName ∨
        e = NewValidationError ErrMaxValidationFailed fieldName
  | v, e, h => by
    unfold validateMax at h
    rw [ValidIntSyntax_eq] at h
    by_cases hA : (Atoi val).2 = none
    · rw [if_pos hA] at h
      cases v with
      | slice es => exact validateMaxElems_kinds val fieldName es e h
      | string str =>
        simp only [ValidMax, NewValid] at h
        split at h <;> simp at h
        exact Or.inr h
      | int n =>
        simp only [ValidMax, NewValid] at h
        split at h <;> simp at h
        exact Or.inr h
      | _ => simp [NewValid] at h
    · rw [if_neg hA] at h
      simp [NewValid] at h
      exact Or.inl h
theorem validateMaxElems_kinds (val fieldName : String) :
    ∀ (es : List Value) (e : GoError),
      e ∈ (validateMaxElems val fieldName es NewValid).errors →
      e = NewValidationError ErrInvalidValidatorSyntax fieldName ∨
        e = NewValidationError ErrMaxValidationFailed fieldName
  | [], e, h => by simp [validateMaxElems, NewValid] at h
  | x :: es, e, h => by
    rw [validateMaxElems, validateMaxElems_frame] at h
    rcases List.mem_append.1 h with h | h
    · exact validateMax_kinds val fieldName x e h
    · exact validateMaxElems_kinds val fieldName es e h
end

mutual
theorem validateIn_kinds (val fieldName : String) :
    ∀ (v : Value) (e : GoError), e ∈ (validateIn val fieldName v NewValid).errors →
      e = NewValidationError ErrInvalidValidatorSyntax fieldName ∨
        e = NewValidationError ErrInValidationFailed fieldName
  | v, e, h => by
    unfold validateIn at h
    cases v with
    | slice es => exact validateInElems_kinds val fieldName es e h
    | string str =>
      by_cases h0 : val.utf8ByteSize = 0
      · simp [ValidInStringSyntax, NewValid, h0] at h
        exact Or.inl h
      · simp only [ValidInStringSyntax, ValidInString, NewValid, h0, if_false] at h
        split at h <;> simp at h
        exact Or.inr h
    | int n =>
      by_cases h0 : val.utf8ByteSize = 0
      · simp [ValidInIntSyntax, NewValid, h0] at h
        exact Or.inl h
      · simp only [ValidInIntSyntax, ValidInInt, NewValid, h0, if_false] at h
        split at h <;> simp at h
        exact Or.inr h
    | _ => simp [NewValid] at h
theorem validateInElems_kinds (val fieldName : String) :
    ∀ (es : List Value) (e : GoError),
      e ∈ (validateInElems val fieldName es NewValid).errors →
      e = NewValidationError ErrInvalidValidatorSyntax fieldName ∨
        e = NewValidationError ErrInValidationFailed fieldName
  | [], e, h => by simp [validateInElems, NewValid] at h
  | x :: es, e, h => by
    rw [validateInElems, validateInElems_frame] at h
    rcases List.mem_append.1 h with h | h
    · exact validateIn_kinds val fieldName x e h
    · exact validateInElems_kinds val fieldName es e h
end

theorem dispatch_kinds (rule val fieldName : String) (v : Value) (e : GoError)
    (h : e ∈ (dispatch rule val fieldName v NewValid).errors) :
    ∃ k ∈ ruleKinds rule, e = NewValidationError k fieldName := by
  unfold dispatch at h
  unfold ruleKinds
  split_ifs at h ⊢
  · rcases validateLen_kinds val fieldName v e h with h | h
    · exact ⟨_, by simp, h⟩
    · exact ⟨_, by simp, h⟩
  · rcases validateIn_kinds val fieldName v e h with h | h
    · exact ⟨_, by simp, h⟩
    · exact ⟨_, by simp, h⟩
  · rcases validateMin_kinds val fieldName v e h with h | h
    · exact ⟨_, by simp, h⟩
    · exact ⟨_, by simp, h⟩
  · rcases validateMax_kinds val fieldName v e h with h | h
    · exact ⟨_, by simp, h⟩
    · exact ⟨_, by simp, h⟩
  · simp [NewValid] at h

theorem splitChars_head (sep : Char) :
    ∀ cs : List Char,
      (splitChars sep cs).head? = some (cs.takeWhile fun c => c ≠ sep)
  | [] => by simp [splitChars]
  | c :: cs => by
    have ih := splitChars_head sep cs
    unfold splitChars
    by_cases hc : c = sep
    · simp [hc]
    · obtain ⟨q, qs, hq⟩ := List.exists_cons_of_ne_nil (splitChars_ne_nil sep cs)
      rw [hq] at ih ⊢
      simp only [List.head?_cons, Option.some.injEq] at ih
      simp [hc, ih]

theorem ruleName_of_split (tag rule : String) (rest : List String)
    (h : Split tag ':' = rule :: rest) : ruleName tag = rule := by
  have h1 := splitChars_head ':' tag.data
  unfold Split at h
  cases hs : splitChars ':' tag.data with
  | nil => exact absurd hs (splitChars_ne_nil ':' tag.data)
  | cons q qs =>
    rw [hs] at h h1
    simp only [List.map_cons, List.cons.injEq] at h
    simp only [List.head?_cons, Option.some.injEq] at h1
    rw [ruleName, ← h1, h.1]

theorem iteration_kinds (f : Field) (st st1 : LoopState) (h : iteration f st = .next st1) :
    ∀ e ∈ st1.valid.errors, e ∈ st.valid.errors ∨
      (f.Tag ≠ "" ∧ ∃ k ∈ ruleKinds (ruleName f.Tag), e = NewValidationError k f.Name) := by
  intro e he
  unfold iteration at h
  by_cases ht : f.Tag = ""
  · simp only [ht, if_true, Control.next.injEq] at h
    rw [← h] at he
    exact Or.inl he
  · simp only [ht, if_false] at h
    split_ifs at h
    split at h
    · rename_i rule val rest hs
      simp only [Control.next.injEq] at h
      rw [← h, dispatch_frame] at he
      rcases List.mem_append.1 he with he | he
      · exact Or.inl he
      · right
        rw [ruleName_of_split f.Tag rule (val :: rest) hs]
        exact ⟨ht, dispatch_kinds rule val f.Name f.value e he⟩
    · simp at h

theorem validateFields_kinds :
    ∀ (fields : List Field) (st st1 : LoopState), validateFields fields st = .next st1 →
      ∀ e ∈ st1.valid.errors, e ∈ st.valid.errors ∨
        ∃ f ∈ fields, f.Tag ≠ "" ∧
          ∃ k ∈ ruleKinds (ruleName f.Tag), e = NewValidationError k f.Name
  | [], st, st1, h, e, he => by
    simp only [validateFields, Control.next.injEq] at h
    rw [← h] at he
    exact Or.inl he
  | f :: fs, st, st1, h, e, he => by
    simp only [validateFields] at h
    cases hi : iteration f st with
    | exit r => simp [hi] at h
    | next st2 =>
      rw [hi] at h
      rcases validateFields_kinds fs st2 st1 h e he with h2 | ⟨g, hg, hr⟩
      · rcases iteration_kinds f st st2 hi e h2 with h3 | h3
        · exact Or.inl h3
        · exact Or.inr ⟨f, List.mem_cons_self f fs, h3⟩
      · exact Or.inr ⟨g, List.mem_cons_of_mem f hg, hr⟩

theorem struct_violations_kinds (fields : List Field) (err : Option GoError)
    (h : (Validate (.struct fields)).outcome = .returned err) :
    ∀ e ∈ violations err, ∃ f ∈ fields, f.Tag ≠ "" ∧
      ∃ k ∈ ruleKinds (ruleName f.Tag), e = NewValidationError k f.Name := by
  intro e he
  cases hv : validateFields fields ⟨NewValid, []⟩ with
  | next st =>
    rw [Validate_struct_next fields st hv] at h
    simp only [Outcome.returned.injEq] at h
    rw [← h, violations_Join] at he
    rcases validateFields_kinds fields _ st hv e he with h1 | h1
    · simp [NewValid] at h1
    · exact h1
  | exit r =>
    rw [Validate_struct_exit fields r hv] at h
    rcases validateFields_exit_outcome fields _ r hv with h1 | h1
    · rw [h1] at h
      simp only [Outcome.returned.injEq] at h
      rw [← h] at he
      simp [violations, ErrValidateForUnexportedFields] at he
    · rw [h1] at h
      cases h

/-! ## The message of a violation -/

theorem returned_violations_kinds (s : Value) (err : Option GoError)
    (h : (Validate s).outcome = .returned err) :
    ∀ e ∈ violations err, ∃ (fieldName : String) (k : GoError),
      e = NewValidationError k fieldName := by
  intro e he
  have hstruct : ∀ fields, (Validate (.struct fields)).outcome = .returned err →
      ∃ (fieldName : String) (k : GoError), e = NewValidationError k fieldName := by
    intro fields hf
    obtain ⟨f, _, _, k, _, hk⟩ := struct_violations_kinds fields err hf e he
    exact ⟨f.Name, k, hk⟩
  have hnot : (Outcome.returned (some ErrNotStruct) = .returned err) →
      ∃ (fieldName : String) (k : GoError), e = NewValidationError k fieldName := by
    intro hn
    simp only [Outcome.returned.injEq] at hn
    rw [← hn] at he
    simp [violations, ErrNotStruct] at he
  cases s with
  | struct fields => exact hstruct fields h
  | invalid => cases h
  | ptr p =>
    cases p with
    | none => exact hnot h
    | some v =>
      cases v with
      | struct fields => exact hstruct fields h
      | _ => exact hnot h
  | _ => exact hnot h

theorem intercalate_go_append (sep : String) :
    ∀ (xs : List String) (a b : String),
      String.intercalate.go (a ++ b) sep xs = a ++ String.intercalate.go b sep xs
  | [], a, b => by simp [String.intercalate.go]
  | x :: xs, a, b => by
    simp only [String.intercalate.go]
    rw [← intercalate_go_append sep xs a (b ++ sep ++ x)]
    simp [String.append_assoc]

/-- C18: the message of the violation built by `NewValidationError` from the
field name `f` and the kind `k` is `f`, then `: `, then the message of `k`, and
unwrapping it gives `k`; for example `Name: len validation failed`.  For every
input on which `Validate` returns, every violation of the returned error is
such a violation and has that message, and the message of the composite error
consists of these messages, one per line. -/
theorem violation_message :
    (∀ (f : String) (k : GoError),
      (NewValidationError k f).Error = f ++ ": " ++ k.Error ∧
      (NewValidationError k f).Unwrap = some k) ∧
    (NewValidationError ErrLenValidationFailed "Name").Error = "Name: len validation failed" ∧
    (∀ (s : Value) (err : Option GoError), (Validate s).outcome = .returned err →
      ∀ e ∈ violations err, ∃ (f : String) (k : GoError),
        e = NewValidationError k f ∧ e.Error = f ++ ": " ++ k.Error ∧ e.Unwrap = some k) ∧
    (∀ errs : List GoError,
      (GoError.joinError errs).Error = String.intercalate "\n" (errs.map GoError.Error)) := by
  have hform : ∀ (f : String) (k : GoError),
      (NewValidationError k f).Error = f ++ ": " ++ k.Error ∧
      (NewValidationError k f).Unwrap = some k := by
    intro f k
    constructor
    · rw [NewValidationError, GoError.Error]
    · rfl
  refine ⟨hform, by decide, fun s err h e he => ?_, fun errs => ?_⟩
  · obtain ⟨f, k, hk⟩ := returned_violations_kinds s err h e he
    exact ⟨f, k, hk, hk ▸ (hform f k).1, hk ▸ (hform f k).2⟩
  · rw [GoError.Error]
    induction errs with
    | nil => rfl
    | cons e es ih =>
      cases es with
      | nil => simp [GoError.ErrorLines, String.intercalate, String.intercalate.go]
      | cons e2 es =>
        rw [GoError.ErrorLines, ih]
        simp only [List.map_cons, String.intercalate, String.intercalate.go]
        rw [String.append_assoc, intercalate_go_append]
        simp [String.append_assoc]

/-! ## Every violation belongs to the rule of its field -/

/-- C19: when `Validate` returns on a struct, every violation of the returned
error carries the name of an annotated field of the struct, and its kind is
the syntax kind or the kind of the rule named in the tag of that field (`len`
gives `ErrLenValidationFailed`, `in` gives `ErrInValidationFailed`, `min` gives
`ErrMinValidationFailed`, `max` gives `ErrMaxValidationFailed`, any other name
nothing). -/
theorem violations_belong_to_rules (fields : List Field) (err : Option GoError)
    (h : (Validate (.struct fields)).outcome = .returned err) :
    ∀ e ∈ violations err, ∃ f ∈ fields, f.Tag ≠ "" ∧
      ∃ k ∈ ruleKinds (ruleName f.Tag), e = NewValidationError k f.Name :=
  struct_violations_kinds fields err h

theorem violations_belong_to_rules_witness :
    ruleKinds (ruleName "len:5") = [ErrInvalidValidatorSyntax, ErrLenValidationFailed] ∧
    ruleKinds (ruleName "min:x") = [ErrInvalidValidatorSyntax, ErrMinValidationFailed] ∧
    ∀ e ∈ violations (some (.joinError [NewValidationError ErrLenValidationFailed "Name",
        NewValidationError ErrInvalidValidatorSyntax "Age"])),
      ∃ f ∈ [(⟨"Name", "len:5", true, .string "ab"⟩ : Field), ⟨"Note", "", true, .string ""⟩,
          ⟨"Age", "min:x", true, .int 5⟩],
        f.Tag ≠ "" ∧ ∃ k ∈ ruleKinds (ruleName f.Tag), e = NewValidationError k f.Name :=
  ⟨by decide, by decide,
    violations_belong_to_rules
      [⟨"Name", "len:5", true, .string "ab"⟩, ⟨"Note", "", true, .string ""⟩,
        ⟨"Age", "min:x", true, .int 5⟩]
      (some (.joinError [NewValidationError ErrLenValidationFailed "Name",
        NewValidationError ErrInvalidValidatorSyntax "Age"])) (by decide)⟩

/-! ## The length of a string is its number of bytes -/

theorem Validate_exported_field (f : Field) (rule val : String) (rest : List String)
    (hs : Split f.Tag ':' = rule :: val :: rest) (hx : f.IsExported = true) :
    (Validate (.struct [f])).outcome =
      .returned (Join (dispatch rule val f.Name f.value NewValid).errors) := by
  have hne : f.Tag ≠ "" := by
    intro h
    rw [h, show Split "" ':' = [""] from by decide] at hs
    simp at hs
  have hstep : ∀ st : LoopState, iteration f st =
      .next ⟨⟨st.valid.errors ++ (dispatch rule val f.Name f.value NewValid).errors⟩,
        st.stdout ++ [(f.Name, f.value)]⟩ := by
    intro st
    simp only [iteration, hne, hx, hs, if_false, Bool.true_eq_false]
    rw [dispatch_frame]
  exact Validate_single_field f _ _ hstep

theorem dispatch_len_string (p fieldName str : String) (hd : isDecimalInteger p = true)
    (hlen : str.utf8ByteSize < 2 ^ 63) :
    (dispatch "len" p fieldName (.string str) NewValid).errors = [] ↔
      (str.utf8ByteSize : Int) = decimalValue p := by
  simp only [dispatch, if_true, validateLen]
  rw [ValidLenSyntax_eq, Atoi_of_decimal p hd]
  by_cases hr : -(2 ^ 63) ≤ decimalValue p ∧ decimalValue p < 2 ^ 63
  · rw [if_pos hr]
    by_cases h0 : 0 ≤ decimalValue p
    · simp only [h0, and_self, if_true, ValidLen, NewValid]
      split_ifs <;> simp_all
    · simp only [h0, and_false, if_false, NewValid]
      constructor
      · intro h; simp at h
      · intro h; omega
  · rw [if_neg hr]
    simp only [reduceCtorEq, false_and, if_false, NewValid]
    constructor
    · intro h; simp at h
    · intro h
      exact absurd ⟨by omega, by omega⟩ hr

theorem dispatch_min_string (p fieldName str : String) (hd : isDecimalInteger p = true)
    (hlo : -(2 ^ 63) ≤ decimalValue p) (hhi : decimalValue p < 2 ^ 63) :
    (dispatch "min" p fieldName (.string str) NewValid).errors = [] ↔
      decimalValue p ≤ (str.utf8ByteSize : Int) := by
  have h1 : ¬ ("min" : String) = "len" := by decide
  have h2 : ¬ ("min" : String) = "in" := by decide
  simp only [dispatch, h1, h2, if_false, if_true, validateMin]
  rw [ValidIntSyntax_eq, Atoi_in_range p hd hlo hhi]
  simp only [if_true, ValidMin, NewValid]
  split_ifs <;> simp <;> omega

theorem dispatch_max_string (p fieldName str : String) (hd : isDecimalInteger p = true)
    (hlo : -(2 ^ 63) ≤ decimalValue p) (hhi : decimalValue p < 2 ^ 63) :
    (dispatch "max" p fieldName (.string str) NewValid).errors = [] ↔
      (str.utf8ByteSize : Int) ≤ decimalValue p := by
  have h1 : ¬ ("max" : String) = "len" := by decide
  have h2 : ¬ ("max" : String) = "in" := by decide
  have h3 : ¬ ("max" : String) = "min" := by decide
  simp only [dispatch, h1, h2, h3, if_false, if_true, validateMax]
  rw [ValidIntSyntax_eq, Atoi_in_range p hd hlo hhi]
  simp only [if_true, ValidMax, NewValid, gt_iff_lt]
  split_ifs <;> simp <;> omega

theorem Split_decimal_tag (rule p : String) (hr : ':' ∉ rule.data)
    (hd : isDecimalInteger p = true) : Split (rule ++ ":" ++ p) ':' = [rule, p] := by
  rw [Split_rule_param rule p hr, Split_of_not_mem ':' p (decimal_no_colon p hd)]

/-- C20: the length that `len`, `min` and `max` compare for a string is its number
of bytes.  For a string `str` (of fewer than `2^63` bytes, as every Go string)
and a decimal integer `p`: the rule `len` with the parameter `p` adds no
violation exactly when the byte count of `str` is the number `p` denotes, and
an exported string field tagged `len:p` makes `Validate` return `nil` exactly
then; when `p` fits `int`, the same holds for `min:p` with the byte count at
least that number, and for `max:p` with the byte count at most that number. -/
theorem string_length_is_byte_count (fieldName p str : String)
    (hd : isDecimalInteger p = true) (hlen : str.utf8ByteSize < 2 ^ 63) :
    ((dispatch "len" p fieldName (.string str) NewValid).errors = [] ↔
      (str.utf8ByteSize : Int) = decimalValue p) ∧
    ((Validate (.struct [⟨fieldName, "len:" ++ p, true, .string str⟩])).outcome =
        .returned none ↔ (str.utf8ByteSize : Int) = decimalValue p) ∧
    (-(2 ^ 63) ≤ decimalValue p → decimalValue p < 2 ^ 63 →
      ((Validate (.struct [⟨fieldName, "min:" ++ p, true, .string str⟩])).outcome =
          .returned none ↔ decimalValue p ≤ (str.utf8ByteSize : Int)) ∧
      ((Validate (.struct [⟨fieldName, "max:" ++ p, true, .string str⟩])).outcome =
          .returned none ↔ (str.utf8ByteSize : Int) ≤ decimalValue p)) := by
  have hl : Split ("len:" ++ p) ':' = ["len", p] := Split_decimal_tag "len" p (by decide) hd
  have hmn : Split ("min:" ++ p) ':' = ["min", p] := Split_decimal_tag "min" p (by decide) hd
  have hmx : Split ("max:" ++ p) ':' = ["max", p] := Split_decimal_tag "max" p (by decide) hd
  refine ⟨dispatch_len_string p fieldName str hd hlen, ?_, fun hlo hhi => ⟨?_, ?_⟩⟩
  · rw [Validate_exported_field ⟨fieldName, "len:" ++ p, true, .string str⟩ "len" p [] hl rfl]
    simp only [Outcome.returned.injEq, Join_eq_none_iff]
    exact dispatch_len_string p fieldName str hd hlen
  · rw [Validate_exported_field ⟨fieldName, "min:" ++ p, true, .string str⟩ "min" p [] hmn rfl]
    simp only [Outcome.returned.injEq, Join_eq_none_iff]
    exact dispatch_min_string p fieldName str hd hlo hhi
  · rw [Validate_exported_field ⟨fieldName, "max:" ++ p, true, .string str⟩ "max" p [] hmx rfl]
    simp only [Outcome.returned.injEq, Join_eq_none_iff]
    exact dispatch_max_string p fieldName str hd hlo hhi

theorem string_length_is_byte_count_witness :
    ("é" : String).length = 1 ∧ ("é" : String).utf8ByteSize = 2 ∧
    (Validate (.struct [⟨"Name", "len:2", true, .string "é"⟩])).outcome = .returned none ∧
    (Validate (.struct [⟨"Name", "min:2", true, .string "é"⟩])).outcome = .returned none ∧
    (Validate (.struct [⟨"Name", "len:1", true, .string "é"⟩])).outcome ≠ .returned none ∧
    (Validate (.struct [⟨"Name", "max:1", true, .string "é"⟩])).outcome ≠ .returned none :=
  ⟨by decide, by decide,
   (string_length_is_byte_count "Name" "2" "é" (by decide) (by decide)).2.1.2 (by decide),
   ((string_length_is_byte_count "Name" "2" "é" (by decide) (by decide)).2.2
      (by decide) (by decide)).1.2 (by decide),
   fun h => absurd
    ((string_length_is_byte_count "Name" "1" "é" (by decide) (by decide)).2.1.1 h) (by decide),
   fun h => absurd
    (((string_length_is_byte_count "Name" "1" "é" (by decide) (by decide)).2.2
      (by decide) (by decide)).2.1 h) (by decide)⟩

end validator
